import Mathlib

/-!
Verification development for a deterministic FX backtesting engine.

The engine comprises an event loop (simulated time, priority-ordered
events, chores), a publish/subscribe fabric (direct consumers with batch
semantics), a market-data replayer, and an LP (liquidity provider)
simulator with IOC matching and NOP-gated risk.  The definitions below
are a shallow embedding of the corresponding C++ sources:

  * `internal/lp_sim.cpp`              (LP simulator, matching, NOP gate)
  * `internal/event_loop` implementation (simulated clock, event queues)
  * `internal/pub_internal.hpp`        (DirectConsumer batch semantics)
  * `internal/market_data_replayer.cpp` (replayable record stream)
  * `internal/simple_risk_model` and `risk.hpp` (fair price, NOP)

Machine doubles are modelled by exact rational arithmetic extended with a
NaN element (`Flt := Option ℚ`, `none` standing for NaN), with IEEE
comparison semantics: every comparison involving NaN is false, and NaN
propagates through arithmetic.  Timestamps (`std::chrono::nanoseconds`)
are modelled as unbounded integers.
-/

namespace TcGts

/-- Flt models a C++ `double` as an exact rational with a NaN element;
`none` is NaN.  Infinities are not modelled: the embedding covers the
finite-and-NaN fragment exercised by the engine. -/
abbrev Flt := Option ℚ

namespace Flt

/-- isNaN mirrors `std::isnan`. -/
def isNaN (x : Flt) : Bool := x.isNone

/-- lt mirrors the IEEE `<` on doubles: false whenever an operand is NaN. -/
def lt : Flt → Flt → Bool
  | some a, some b => decide (a < b)
  | _, _ => false

/-- le mirrors the IEEE `<=` on doubles: false whenever an operand is NaN. -/
def le : Flt → Flt → Bool
  | some a, some b => decide (a ≤ b)
  | _, _ => false

/-- add mirrors `+` on doubles; NaN propagates. -/
def add : Flt → Flt → Flt
  | some a, some b => some (a + b)
  | _, _ => none

/-- sub mirrors binary `-` on doubles; NaN propagates. -/
def sub : Flt → Flt → Flt
  | some a, some b => some (a - b)
  | _, _ => none

/-- mul mirrors `*` on doubles; NaN propagates. -/
def mul : Flt → Flt → Flt
  | some a, some b => some (a * b)
  | _, _ => none

/-- div mirrors `/` on doubles for nonzero finite divisors; NaN propagates. -/
def div : Flt → Flt → Flt
  | some a, some b => some (a / b)
  | _, _ => none

/-- neg mirrors unary `-` on doubles; NaN propagates. -/
def neg : Flt → Flt
  | some a => some (-a)
  | none => none

/-- ofInt models the usual arithmetic promotion of an `int` operand to
`double` in a mixed expression. -/
def ofInt (n : Int) : Flt := some (n : ℚ)

/-- stdMin mirrors `std::min(a, b)`, which returns `b` when `b < a` and
`a` otherwise (so `std::min(NaN, x) = NaN` and `std::min(x, NaN) = x`). -/
def stdMin (a b : Flt) : Flt := if lt b a then b else a

/-- stdMax mirrors `std::max(a, b)`, which returns `b` when `a < b` and
`a` otherwise. -/
def stdMax (a b : Flt) : Flt := if lt a b then b else a

end Flt

/-- Side of an order, from `flow.hpp` (`enum class Side`). -/
inductive Side where
  | Buy
  | Sell
deriving DecidableEq, Repr

/-- sideToSign converts a `Side` to its numeric sign, from `flow.hpp`
(`Buy = 1`, `Sell = -1`). -/
def sideToSign : Side → Int
  | .Buy => 1
  | .Sell => -1

/-- Terminal status of an order, from `flow.hpp` (`enum class DoneStatus`). -/
inductive DoneStatus where
  | Done
  | Rejected
  | InternalReject
deriving DecidableEq, Repr

/-- Time-in-force of an order, from `flow.hpp` (`enum class TIF`). -/
inductive TIF where
  | GTC
  | IOC
deriving DecidableEq, Repr

/-- Three-letter currency code (`symbology.hpp`: `using Asset = std::string`). -/
abbrev Asset := String

/-- Currency-pair identifier (`symbology.hpp`: `using Symbol = std::string`). -/
abbrev Symbol := String

/-- Top-of-book market data for a symbol, from `market_data.hpp`. -/
structure TopOfBook where
  bidSize : Flt
  bidPrice : Flt
  askSize : Flt
  askPrice : Flt
deriving DecidableEq, Repr

/-- Cache of the latest top-of-book record per symbol
(`pub::CacheSubscriber<md::TopOfBook>`), modelled as an association list
keyed by symbol; `getCachedRecord` is `List.lookup`. -/
abbrev TopOfBookCache := List (Symbol × TopOfBook)

/-- getFairPrice from `SimpleRiskModel` (`part_002`): 1 for USD, else the
mid price of `A/USD` if cached, else the inverse mid of `USD/A` if
cached, else NaN. -/
def getFairPrice (cache : TopOfBookCache) (asset : Asset) : Flt :=
  if asset = "USD" then some 1
  else
    match cache.lookup (asset ++ "/USD") with
    | some b => Flt.div (Flt.add b.bidPrice b.askPrice) (some 2)
    | none =>
      match cache.lookup ("USD/" ++ asset) with
      | some b => Flt.div (some 2) (Flt.add b.bidPrice b.askPrice)
      | none => none

/-- Positions container (`std::unordered_map<Asset, Quantity>` in
`LPSim::Impl`), modelled as an association list. -/
abbrev Positions := List (Asset × Flt)

/-- getPosition reads an asset's slot; a missing slot reads as 0,
mirroring `operator[]` value-initialisation of the `double` slot. -/
def getPosition (ps : Positions) (a : Asset) : Flt :=
  match ps.lookup a with
  | some v => v
  | none => some 0

/-- setPosition writes an asset's slot in place, appending a new slot
when the asset is absent. -/
def setPosition : Positions → Asset → Flt → Positions
  | [], a, v => [(a, v)]
  | (b, w) :: rest, a, v =>
    if b = a then (b, v) :: rest else (b, w) :: setPosition rest a v

/-- getNOP from `risk.hpp` (`Risk::getNOP`): sum long positions times fair
price into `longs`, subtract short positions times fair price into
`shorts` (the branch test is `position >= 0`, false for NaN), and return
`std::max(longs, shorts)`. -/
def getNOP (fairPrice : Asset → Flt) (positions : Positions) : Flt :=
  let r := positions.foldl
    (fun acc entry =>
      if Flt.le (some 0) entry.2 then
        (Flt.add acc.1 (Flt.mul entry.2 (fairPrice entry.1)), acc.2)
      else
        (acc.1, Flt.sub acc.2 (Flt.mul entry.2 (fairPrice entry.1))))
    (some 0, some 0)
  Flt.stdMax r.1 r.2

/-- Settings of the LP simulator, from `lp_sim.hpp`. -/
structure Settings where
  inboundDelay : Int
  outboundDelay : Int
  minOrderGap : Int
  maxNOP : Flt

/-- Order record private to `LPSim::Impl`. -/
structure Order where
  orderId : Nat
  side : Side
  price : Flt
  qty : Flt
  tif : TIF
deriving Repr

/-- isPriceImprovementEnabled from `LPSim::Impl`: always true. -/
def isPriceImprovementEnabled : Bool := true

/-- priceTolerance constant of `ExecutorImpl::agress` (1e-8). -/
def priceTolerance : Flt := some (1 / 100000000)

/-- validateNOPChange from `ExecutorImpl` (`lp_sim.cpp` lines 179-194):
reject NaN deltas outright; otherwise record the current NOP, tentatively
add `dealt` to the base slot and `contra` to the quote slot, compute the
new NOP, revert both slots, and accept when the new NOP strictly
decreased or does not exceed `maxNOP`.  The returned positions are the
state after the revert. -/
def validateNOPChange (cache : TopOfBookCache) (maxNOP : Flt)
    (baseAsset quoteAsset : Asset) (positions : Positions)
    (dealt contra : Flt) : Bool × Positions :=
  if Flt.isNaN dealt || Flt.isNaN contra then
    (false, positions)
  else
    let currentNOP := getNOP (getFairPrice cache) positions
    let ps1 := setPosition positions baseAsset
      (Flt.add (getPosition positions baseAsset) dealt)
    let ps2 := setPosition ps1 quoteAsset
      (Flt.add (getPosition ps1 quoteAsset) contra)
    let newNOP := getNOP (getFairPrice cache) ps2
    let ps3 := setPosition ps2 baseAsset
      (Flt.sub (getPosition ps2 baseAsset) dealt)
    let ps4 := setPosition ps3 quoteAsset
      (Flt.sub (getPosition ps3 quoteAsset) contra)
    (Flt.lt newNOP currentNOP || Flt.le newNOP maxNOP, ps4)

/-- Result of `agress`: the done status, the enqueued fill `(dealt,
contra)` if any, and the positions container after the call. -/
structure AgressResult where
  status : DoneStatus
  fill : Option (Flt × Flt)
  positions : Positions
deriving Repr

/-- agress from `ExecutorImpl` (`lp_sim.cpp` lines 152-177): no cross when
the top price is NaN or the order price is on the wrong side of the top
price beyond the tolerance; otherwise match at the top price (price
improvement is always enabled) for `std::min(qtyAtTop, order.qty)`; a
positive matched quantity is gated by `validateNOPChange` and, when
accepted, enqueued as a fill. -/
def agress (cache : TopOfBookCache) (maxNOP : Flt)
    (baseAsset quoteAsset : Asset) (positions : Positions)
    (order : Order) (qtyAtTop topPrice : Flt) : AgressResult :=
  let sideSign := sideToSign order.side
  if Flt.isNaN topPrice ||
      Flt.lt (Flt.mul order.price (Flt.ofInt sideSign))
        (Flt.sub (Flt.mul topPrice (Flt.ofInt sideSign)) priceTolerance) then
    ⟨.Done, none, positions⟩
  else
    let matchedPrice :=
      if Flt.isNaN order.price || isPriceImprovementEnabled then topPrice
      else order.price
    let matchedQty := Flt.stdMin qtyAtTop order.qty
    if Flt.lt (some 0) matchedQty then
      let dealt := Flt.mul (Flt.ofInt sideSign) matchedQty
      let contra := Flt.mul (Flt.neg dealt) matchedPrice
      let v := validateNOPChange cache maxNOP baseAsset quoteAsset
        positions dealt contra
      if !v.1 then ⟨.InternalReject, none, v.2⟩
      else ⟨.Done, some (dealt, contra), v.2⟩
    else ⟨.Done, none, positions⟩

/-- Mutable per-executor state of `ExecutorImpl`: the cached top-of-book
pointer (`none` models the null pointer), the minimum-gap clock, and the
shared positions container. -/
structure ExecutorState where
  book : Option TopOfBook
  lastOrderSendTime : Int
  positions : Positions
deriving Repr

/-- validateOrder from `ExecutorImpl` (`lp_sim.cpp` lines 137-143): the
book pointer is set, the order is IOC with positive quantity, and at
least `minOrderGap` elapsed since `lastOrderSendTime`. -/
def validateOrder (minOrderGap : Int) (st : ExecutorState) (order : Order)
    (now : Int) : Bool :=
  st.book.isSome && order.tif == TIF.IOC && Flt.lt (some 0) order.qty &&
    decide (now - st.lastOrderSendTime ≥ minOrderGap)

/-- Result of `process`: the executor state afterwards, the done status
reported by `enqueOrderDone`, and the fill enqueued by `agress`, if any. -/
structure ProcessResult where
  state : ExecutorState
  status : DoneStatus
  fill : Option (Flt × Flt)
deriving Repr

/-- process from `ExecutorImpl` (`lp_sim.cpp` lines 118-135): on
validation success, set `lastOrderSendTime` to the current time, select
the side-appropriate top-of-book size and price (ask side for a Buy, bid
side for a Sell), and agress; on failure, `InternalReject` without
touching the clock.  The `none` book branch is unreachable because
validation requires a non-null book. -/
def process (cache : TopOfBookCache) (settings : Settings)
    (baseAsset quoteAsset : Asset) (st : ExecutorState) (order : Order)
    (now : Int) : ProcessResult :=
  if validateOrder settings.minOrderGap st order now then
    match st.book with
    | some book =>
      let st1 := { st with lastOrderSendTime := now }
      let qtyAtTop := if order.side = .Buy then book.askSize else book.bidSize
      let topPrice := if order.side = .Buy then book.askPrice else book.bidPrice
      let r := agress cache settings.maxNOP baseAsset quoteAsset
        st1.positions order qtyAtTop topPrice
      ⟨{ st1 with positions := r.positions }, r.status, r.fill⟩
    | none => ⟨st, .InternalReject, none⟩
  else ⟨st, .InternalReject, none⟩

/-- Modulus of the `uint64_t` order-id counter. -/
def UINT64_MOD : Nat := 2 ^ 64

/-- getNextOrderId from `LPSim::Impl` (`lp_sim.cpp` lines 72-75):
`return ++m_lastOrderId;` — pre-increment the `uint64_t` counter and
return the new value.  Returns `(returned id, new counter)`. -/
def getNextOrderId (lastOrderId : Nat) : Nat × Nat :=
  let next := (lastOrderId + 1) % UINT64_MOD
  (next, next)

/-- sendOrder's effect on the order-id counter (`lp_sim.cpp` lines
101-115): exactly one `getNextOrderId` call per `sendOrder`; the fresh id
is returned to the caller.  The scheduling of `process` is modelled by
the event-loop embedding below. -/
def sendOrderId (lastOrderId : Nat) : Nat × Nat :=
  getNextOrderId lastOrderId

/-- assocSet writes a key's slot in an association list in place,
appending when the key is absent (the effect of `try_emplace` followed by
assignment through the returned iterator). -/
def assocSet {α : Type} : List (String × α) → String → α → List (String × α)
  | [], k, v => [(k, v)]
  | (k2, w) :: rest, k, v =>
    if k2 = k then (k2, v) :: rest else (k2, w) :: assocSet rest k v

/-- Callback held by a `DirectConsumer::Entry` (`pub_internal.hpp`).  A
`std::function` is either empty (`nullFn`, compares equal to `nullptr`),
the initial no-op lambda installed by `getCreateEntry` (`noopFn`), or a
callback passed to `subscribe` (`subFn`, tagged to tell instances
apart).  Both `noopFn` and `subFn` are non-null `std::function`s. -/
inductive Callback where
  | nullFn
  | noopFn
  | subFn (id : Nat)
deriving DecidableEq, Repr

/-- Entry of a `DirectConsumer`: whether `setData` has supplied a record
pointer, and the current callback. -/
structure DCEntry where
  hasData : Bool
  callback : Callback
deriving DecidableEq, Repr

/-- State of a `DirectConsumer`: its per-topic entries and the
`m_updates_received` flag. -/
structure DCState where
  entries : List (String × DCEntry)
  updatesReceived : Bool
deriving DecidableEq, Repr

/-- getCreateEntry from `DirectConsumer` (`pub_internal.hpp` lines
86-94): `try_emplace` the topic, installing the no-op callback on
insertion, then `setData`. -/
def getCreateEntry (s : DCState) (topic : String) : DCState :=
  match s.entries.lookup topic with
  | some e =>
    { s with entries := assocSet s.entries topic { e with hasData := true } }
  | none => { s with entries := s.entries ++ [(topic, ⟨true, .noopFn⟩)] }

/-- createEntry from `DirectConsumer`: `getCreateEntry` followed by
`subscriber.notify`.  The subscriber's reaction (possibly a synchronous
`subscribe` call) is modelled by the operations that follow in the
operation sequence, so the state effect here is that of
`getCreateEntry`. -/
def createEntryDC (s : DCState) (topic : String) : DCState :=
  getCreateEntry s topic

/-- subscribe from `DirectConsumer` (`pub_internal.hpp` lines 96-106):
set the entry's callback, creating the entry without a backing record
when absent. -/
def subscribeDC (s : DCState) (topic : String) (cb : Callback) : DCState :=
  match s.entries.lookup topic with
  | some e =>
    { s with entries := assocSet s.entries topic { e with callback := cb } }
  | none => { s with entries := s.entries ++ [(topic, ⟨false, cb⟩)] }

/-- publish from `DirectConsumer::Entry` (`pub_internal.hpp` lines
49-57): when the callback is a non-null `std::function` (`m_callback !=
nullptr`), invoke it and set `m_got_updates`.  The initial no-op lambda
is a non-null `std::function`.  A publish on an unknown topic cannot
occur (publish is a method of an existing entry) and is a no-op here. -/
def publishDC (s : DCState) (topic : String) : DCState :=
  match s.entries.lookup topic with
  | some e =>
    if e.callback ≠ Callback.nullFn then { s with updatesReceived := true }
    else s
  | none => s

/-- endBatch from `DirectConsumer` (`pub_internal.hpp` lines 80-84):
`std::exchange` the flag with false and deliver `endOfBatch` when it was
set.  Returns the state and whether `endOfBatch` was delivered. -/
def endBatchDC (s : DCState) : DCState × Bool :=
  ({ s with updatesReceived := false }, s.updatesReceived)

/-- Operations a producer and its subscriber can perform on a
`DirectConsumer` between observations. -/
inductive DCOp where
  | createEntry (topic : String)
  | subscribe (topic : String) (cb : Callback)
  | publish (topic : String)
  | endBatch
deriving DecidableEq, Repr

/-- runDCOp executes one operation; for `endBatch` it also reports
whether `endOfBatch` was delivered. -/
def runDCOp (s : DCState) : DCOp → DCState × Option Bool
  | .createEntry t => (createEntryDC s t, none)
  | .subscribe t cb => (subscribeDC s t cb, none)
  | .publish t => (publishDC s t, none)
  | .endBatch => ((endBatchDC s).1, some (endBatchDC s).2)

/-- runDC executes a sequence of operations and collects, for each
`endBatch`, whether `endOfBatch` was delivered. -/
def runDC : DCState → List DCOp → DCState × List Bool
  | s, [] => (s, [])
  | s, op :: rest =>
    let r := runDCOp s op
    let rr := runDC r.1 rest
    (rr.1, (match r.2 with | some b => [b] | none => []) ++ rr.2)

/-- subscribedPublishOccurs holds when a publish lands on an entry whose
current callback was installed by a `subscribe` call (not the initial
no-op, not null): the notion of observed update used by the claim. -/
def subscribedPublishOccurs (s : DCState) (topic : String) : Bool :=
  match s.entries.lookup topic with
  | some e => match e.callback with | .subFn _ => true | _ => false
  | none => false

/-- nonNullPublishOccurs holds when a publish lands on an entry whose
current callback is a non-null `std::function` (the initial no-op
counts): the notion of observed update the code implements. -/
def nonNullPublishOccurs (s : DCState) (topic : String) : Bool :=
  match s.entries.lookup topic with
  | some e => decide (e.callback ≠ Callback.nullFn)
  | none => false

/-- specDeliveries computes, for each `endBatch` in the sequence, whether
at least one publish satisfying `occurs` happened since the previous
batch boundary. -/
def specDeliveries (occurs : DCState → String → Bool) :
    DCState → Bool → List DCOp → List Bool
  | _, _, [] => []
  | s, flag, op :: rest =>
    match op with
    | .endBatch => flag :: specDeliveries occurs (runDCOp s op).1 false rest
    | .publish t =>
      specDeliveries occurs (runDCOp s op).1 (flag || occurs s t) rest
    | _ => specDeliveries occurs (runDCOp s op).1 flag rest

/-- Commands an event callback can issue against the event loop: post a
further event (whose callback is again a command list) or request a
stop.  This is the fragment of callback behaviour relevant to the clock. -/
inductive Cmd where
  | post (delta : Int) (body : List Cmd)
  | stop (delta : Int)

/-- Payload of a queued future event: a user callback, or the
`stop`-event callback that clears `m_enable`. -/
inductive EvPayload where
  | user (body : List Cmd)
  | halt

/-- Future event from the event loop implementation (`TimedEvent`):
identifier, expiry time, callback. -/
structure FutureEvent where
  eventId : Int
  expireTime : Int
  payload : EvPayload

/-- State of `EventLoop::Impl`: current time, future-event priority
queue (modelled as a list popped at the minimum of `(expireTime,
eventId)`), chore FIFO, last event id, and the dispatch-enable flag. -/
structure ELState where
  now : Int
  future : List FutureEvent
  chores : List (Int × List Cmd)
  lastEventId : Int
  enabled : Bool

/-- initEL mirrors the `EventLoop::Impl` constructor. -/
def initEL (start : Int) : ELState :=
  ⟨start, [], [], 0, true⟩

/-- EVENT_ID_MAX is `std::numeric_limits<int64_t>::max()`, the id used by
`stop` so that it sorts after any simultaneous event. -/
def EVENT_ID_MAX : Int := 2 ^ 63 - 1

/-- postEventEL from `EventLoop::Impl::postEvent`: advance `m_lastEventId`
by 2; a zero delta appends a chore with the even id, otherwise a future
event is queued at `now + delta` with the odd id. -/
def postEventEL (s : ELState) (delta : Int) (body : List Cmd) : ELState :=
  let eventId := s.lastEventId + 2
  if delta = 0 then
    { s with lastEventId := eventId, chores := s.chores ++ [(eventId, body)] }
  else
    { s with lastEventId := eventId,
             future := s.future ++ [⟨eventId + 1, s.now + delta, .user body⟩] }

/-- stopEL from `EventLoop::Impl::stop`: queue a future event at `now +
delta` with id `EVENT_ID_MAX` whose callback clears `m_enable`. -/
def stopEL (s : ELState) (delta : Int) : ELState :=
  { s with future := s.future ++ [⟨EVENT_ID_MAX, s.now + delta, .halt⟩] }

/-- evLess is the priority order of the future queue: earlier expiry
first, ties broken by smaller event id. -/
def evLess (a b : FutureEvent) : Bool :=
  a.expireTime < b.expireTime ||
    (a.expireTime = b.expireTime && a.eventId < b.eventId)

/-- popMinFuture removes the minimal element of the future queue under
`evLess` (the element `std::priority_queue::top` would yield). -/
def popMinFuture : List FutureEvent → Option (FutureEvent × List FutureEvent)
  | [] => none
  | e :: rest =>
    match popMinFuture rest with
    | none => some (e, [])
    | some (m, others) =>
      if evLess m e then some (m, e :: others) else some (e, others)

/-- runCmd executes one event-callback command against the loop state. -/
def runCmd (s : ELState) : Cmd → ELState
  | .post delta body => postEventEL s delta body
  | .stop delta => stopEL s delta

/-- runCmds executes an event callback (its commands in order). -/
def runCmds (s : ELState) (cs : List Cmd) : ELState :=
  cs.foldl runCmd s

/-- dispatchChores from `EventLoop::Impl::dispatchChores`: while enabled
and chores remain, pop the front chore and run it.  Chores run at the
current time and may enqueue further work, so the drain is fuelled. -/
def dispatchChores : Nat → ELState → ELState
  | 0, s => s
  | fuel + 1, s =>
    if s.enabled then
      match s.chores with
      | [] => s
      | (_, body) :: rest =>
        dispatchChores fuel (runCmds { s with chores := rest } body)
    else s

/-- dispatchNextFutureEvent from `EventLoop::Impl`: if enabled and the
future queue is non-empty, pop the minimal event, advance `m_now` to its
expiry time, and run its callback. -/
def dispatchNextFutureEvent (s : ELState) : ELState :=
  if s.enabled then
    match popMinFuture s.future with
    | none => s
    | some (e, rest) =>
      let s1 := { s with future := rest, now := e.expireTime }
      match e.payload with
      | .halt => { s1 with enabled := false }
      | .user body => runCmds s1 body
  else s

/-- dispatchLoop is the `while (m_enable & (queues non-empty))` loop of
`EventLoop::Impl::dispatch`: drain chores, then dispatch the single next
future event; fuelled because callbacks may enqueue without bound. -/
def dispatchLoop : Nat → ELState → ELState
  | 0, s => s
  | fuel + 1, s =>
    if s.enabled && (!s.future.isEmpty || !s.chores.isEmpty) then
      dispatchLoop fuel (dispatchNextFutureEvent (dispatchChores fuel s))
    else s

/-- dispatchEL from `EventLoop::Impl::dispatch` as called by
`EventLoop::dispatch` (fast-forward always on): set `m_enable`, fast
forward `m_now` to the earliest expiry when the future queue is
non-empty, then run the dispatch loop. -/
def dispatchEL (fuel : Nat) (s : ELState) : ELState :=
  match popMinFuture s.future with
  | some (e, _) => dispatchLoop fuel { s with enabled := true, now := e.expireTime }
  | none => dispatchLoop fuel { s with enabled := true }

/-- Public operations on the event loop (`postEvent`, `stop`,
`dispatch`); `dispatch` carries the model's fuel. -/
inductive ApiOp where
  | postEvent (delta : Int) (body : List Cmd)
  | stop (delta : Int)
  | dispatch (fuel : Nat)

/-- runApiOp executes one public event-loop operation. -/
def runApiOp (s : ELState) : ApiOp → ELState
  | .postEvent d body => postEventEL s d body
  | .stop d => stopEL s d
  | .dispatch fuel => dispatchEL fuel s

/-- runApi executes a sequence of public event-loop operations. -/
def runApi (s : ELState) (ops : List ApiOp) : ELState :=
  ops.foldl runApiOp s

mutual

/-- nnegCmd holds when a command and every command nested in the
callbacks it posts carry non-negative deltas. -/
def nnegCmd : Cmd → Bool
  | .post d body => decide (0 ≤ d) && nnegCmds body
  | .stop d => decide (0 ≤ d)

/-- nnegCmds holds when every command in a callback satisfies
`nnegCmd`. -/
def nnegCmds : List Cmd → Bool
  | [] => true
  | c :: rest => nnegCmd c && nnegCmds rest

end

/-- nnegPayload holds when a queued payload only carries non-negative
deltas. -/
def nnegPayload : EvPayload → Bool
  | .user body => nnegCmds body
  | .halt => true

/-- nnegState holds when every queued callback in the loop state only
carries non-negative deltas. -/
def nnegState (s : ELState) : Bool :=
  s.future.all (fun e => nnegPayload e.payload) &&
    s.chores.all (fun c => nnegCmds c.2)

/-- nnegApiOp holds when a public operation only carries non-negative
deltas. -/
def nnegApiOp : ApiOp → Bool
  | .postEvent d body => decide (0 ≤ d) && nnegCmds body
  | .stop d => decide (0 ≤ d)
  | .dispatch _ => true

/-- InvEL is the clock invariant: every queued future event expires no
earlier than the current time. -/
def InvEL (s : ELState) : Prop :=
  ∀ e ∈ s.future, s.now ≤ e.expireTime

/-- Parsed market-data record (`timestamp, symbol, top-of-book`). -/
structure MDRec where
  ts : Int
  sym : String
  book : TopOfBook
deriving DecidableEq, Repr

/-- TS_MAX is `TimestampNs::max()` (`int64_t` nanoseconds), the sentinel
for "no further events". -/
def TS_MAX : Int := 2 ^ 63 - 1

/-- State of `MarketDataReplayer::Impl`: the lookahead line, the
remaining input records, and the per-symbol map of stored book values
(its keys are the symbols with a created publisher entry). -/
structure MDRState where
  nextLineTs : Int
  nextLineSym : String
  nextLineBook : TopOfBook
  input : List MDRec
  records : List (String × TopOfBook)
deriving Repr

/-- Observable actions of the replayer on its publisher. -/
inductive MDEv where
  | createEntry (sym : String)
  | publish (sym : String) (book : TopOfBook)
  | endBatch
deriving DecidableEq, Repr

/-- isPublishEv selects the `publish` actions of a replayer trace. -/
def isPublishEv : MDEv → Bool
  | .publish _ _ => true
  | _ => false

/-- getNextEventTime from `MarketDataReplayer::Impl`: the lookahead's
timestamp. -/
def getNextEventTime (st : MDRState) : Int :=
  st.nextLineTs

/-- readNextLine from `MarketDataReplayer::Impl` (lines 67-98): parse the
next input record into the lookahead, or set the lookahead timestamp to
`TimestampNs::max()` at end of stream. -/
def readNextLine (st : MDRState) : MDRState :=
  match st.input with
  | [] => { st with nextLineTs := TS_MAX }
  | r :: rest =>
    { st with nextLineTs := r.ts, nextLineSym := r.sym,
              nextLineBook := r.book, input := rest }

/-- publishMDR from `MarketDataReplayer::Impl::publish` (lines 53-65):
`try_emplace` the lookahead's symbol; on insertion create the publisher
entry bound to the stored value, otherwise overwrite the stored value;
then publish the entry. -/
def publishMDR (st : MDRState) : MDRState × List MDEv :=
  match st.records.lookup st.nextLineSym with
  | some _ =>
    ({ st with records := assocSet st.records st.nextLineSym st.nextLineBook },
      [.publish st.nextLineSym st.nextLineBook])
  | none =>
    ({ st with records := st.records ++ [(st.nextLineSym, st.nextLineBook)] },
      [.createEntry st.nextLineSym, .publish st.nextLineSym st.nextLineBook])

/-- dispatchLoopMDR is the do-while of `dispatchNextEvent` (lines 35-39):
publish the lookahead, read the next line, repeat while the new
lookahead's timestamp still equals `startTime`.  The re-test conjoins
`startTime < TS_MAX`, which the caller's guard makes invariant, so the
loop is well-founded (in the source a `startTime` of `TS_MAX` cannot
reach the loop at all). -/
def dispatchLoopMDR (st : MDRState) (startTime : Int) : MDRState × List MDEv :=
  if getNextEventTime (readNextLine (publishMDR st).1) = startTime ∧
      startTime < TS_MAX then
    ((dispatchLoopMDR (readNextLine (publishMDR st).1) startTime).1,
      (publishMDR st).2 ++
        (dispatchLoopMDR (readNextLine (publishMDR st).1) startTime).2)
  else (readNextLine (publishMDR st).1, (publishMDR st).2)
termination_by st.input.length
decreasing_by
  all_goals
    have hpi : (publishMDR st).1.input = st.input := by
      cases hl : st.records.lookup st.nextLineSym <;> simp [publishMDR, hl]
    rcases hin : st.input with _ | ⟨r, rest⟩ <;>
      simp_all [readNextLine, getNextEventTime, TS_MAX] <;> omega

/-- dispatchNextEventMDR from `MarketDataReplayer::Impl` (lines 30-42):
when the lookahead is not the EOF sentinel, run the publish loop for the
lookahead's timestamp and finish with `publisher.endBatch()`. -/
def dispatchNextEventMDR (st : MDRState) : MDRState × List MDEv :=
  if getNextEventTime st < TS_MAX then
    ((dispatchLoopMDR st (getNextEventTime st)).1,
      (dispatchLoopMDR st (getNextEventTime st)).2 ++ [.endBatch])
  else (st, [])

/-! ## Theorems -/

/-- A strictly positive float is a non-NaN positive rational. -/
theorem flt_lt_zero_elim {x : Flt} (h : Flt.lt (some 0) x = true) :
    ∃ q : ℚ, x = some q ∧ 0 < q := by
  cases x with
  | none => simp [Flt.lt] at h
  | some q => exact ⟨q, rfl, by simpa [Flt.lt] using h⟩

/-- A non-NaN float is a rational. -/
theorem flt_not_nan_elim {x : Flt} (h : Flt.isNaN x = false) :
    ∃ q : ℚ, x = some q := by
  cases x with
  | none => simp [Flt.isNaN] at h
  | some q => exact ⟨q, rfl⟩

/-- On a validated order the executor stamps the clock and agresses
against the side-appropriate top of book. -/
theorem process_eq_of_valid (cache : TopOfBookCache) (settings : Settings)
    (baseAsset quoteAsset : Asset) (st : ExecutorState) (order : Order)
    (now : Int) (book : TopOfBook)
    (hb : st.book = some book)
    (hv : validateOrder settings.minOrderGap st order now = true) :
    process cache settings baseAsset quoteAsset st order now =
      ⟨⟨st.book, now,
          (agress cache settings.maxNOP baseAsset quoteAsset
            st.positions order
            (if order.side = Side.Buy then book.askSize else book.bidSize)
            (if order.side = Side.Buy then book.askPrice else book.bidPrice)).positions⟩,
        (agress cache settings.maxNOP baseAsset quoteAsset st.positions order
          (if order.side = Side.Buy then book.askSize else book.bidSize)
          (if order.side = Side.Buy then book.askPrice else book.bidPrice)).status,
        (agress cache settings.maxNOP baseAsset quoteAsset st.positions order
          (if order.side = Side.Buy then book.askSize else book.bidSize)
          (if order.side = Side.Buy then book.askPrice else book.bidPrice)).fill⟩ := by
  simp only [process, hv, hb, if_true]

/-- A validated order has a cached book. -/
theorem validateOrder_book {minOrderGap : Int} {st : ExecutorState}
    {order : Order} {now : Int}
    (hv : validateOrder minOrderGap st order now = true) :
    ∃ book, st.book = some book := by
  unfold validateOrder at hv
  simp only [Bool.and_eq_true] at hv
  exact Option.isSome_iff_exists.1 hv.1.1.1

/-- An order failing validation yields `InternalReject` with no fill and
no state change. -/
theorem process_eq_of_invalid (cache : TopOfBookCache) (settings : Settings)
    (baseAsset quoteAsset : Asset) (st : ExecutorState) (order : Order)
    (now : Int)
    (hv : validateOrder settings.minOrderGap st order now = false) :
    process cache settings baseAsset quoteAsset st order now
      = ⟨st, DoneStatus.InternalReject, none⟩ := by
  simp [process, hv]

/-- A non-crossing order yields `Done` with no fill and unchanged
positions. -/
theorem agress_noCross (cache : TopOfBookCache) (maxNOP : Flt)
    (baseAsset quoteAsset : Asset) (ps : Positions) (order : Order)
    (qtyAtTop topPrice : Flt)
    (hcr : (Flt.isNaN topPrice ||
      Flt.lt (Flt.mul order.price (Flt.ofInt (sideToSign order.side)))
        (Flt.sub (Flt.mul topPrice (Flt.ofInt (sideToSign order.side)))
          priceTolerance)) = true) :
    agress cache maxNOP baseAsset quoteAsset ps order qtyAtTop topPrice
      = ⟨DoneStatus.Done, none, ps⟩ := by
  simp [agress, hcr]

/-- A non-positive (or NaN) matched quantity yields `Done` with no fill
and unchanged positions. -/
theorem agress_nonpos_qty (cache : TopOfBookCache) (maxNOP : Flt)
    (baseAsset quoteAsset : Asset) (ps : Positions) (order : Order)
    (qtyAtTop topPrice : Flt)
    (hcr : (Flt.isNaN topPrice ||
      Flt.lt (Flt.mul order.price (Flt.ofInt (sideToSign order.side)))
        (Flt.sub (Flt.mul topPrice (Flt.ofInt (sideToSign order.side)))
          priceTolerance)) = false)
    (hmq : Flt.lt (some 0) (Flt.stdMin qtyAtTop order.qty) = false) :
    agress cache maxNOP baseAsset quoteAsset ps order qtyAtTop topPrice
      = ⟨DoneStatus.Done, none, ps⟩ := by
  simp [agress, hcr, hmq]

/-- Every fill produced by `agress` deals the side-signed
`min(qtyAtTop, order.qty)` against exactly the top price. -/
theorem agress_fill_eq (cache : TopOfBookCache) (maxNOP : Flt)
    (baseAsset quoteAsset : Asset) (ps : Positions) (order : Order)
    (qtyAtTop topPrice : Flt) (d c : Flt)
    (hf : (agress cache maxNOP baseAsset quoteAsset ps order qtyAtTop
      topPrice).fill = some (d, c)) :
    d = Flt.mul (Flt.ofInt (sideToSign order.side))
        (Flt.stdMin qtyAtTop order.qty) ∧
      c = Flt.mul (Flt.neg d) topPrice := by
  simp only [agress, isPriceImprovementEnabled, Bool.or_true, if_true] at hf
  split at hf
  · simp at hf
  · split at hf
    · split at hf
      · simp at hf
      · simp at hf
        obtain ⟨h1, h2⟩ := hf
        subst h1
        subst h2
        exact ⟨rfl, rfl⟩
    · simp at hf

/-- C2: for every validated order, a NaN side-appropriate top price, or an
order price below the top price (for the order's sign convention) by more
than the 1e-8 tolerance, yields `Done` with no fill and unchanged
positions; otherwise any fill is at exactly the top price — price
improvement is always on, in particular when the order price is NaN — for
the quantity `min(qtyAtTop, order.qty)`. -/
theorem matching_crossing_and_price (cache : TopOfBookCache)
    (settings : Settings) (baseAsset quoteAsset : Asset)
    (st : ExecutorState) (order : Order) (now : Int) (book : TopOfBook)
    (qtyAtTop topPrice : Flt)
    (hb : st.book = some book)
    (hv : validateOrder settings.minOrderGap st order now = true)
    (hqat : qtyAtTop = if order.side = Side.Buy then book.askSize else book.bidSize)
    (htp : topPrice = if order.side = Side.Buy then book.askPrice else book.bidPrice) :
    ((Flt.isNaN topPrice ||
        Flt.lt (Flt.mul order.price (Flt.ofInt (sideToSign order.side)))
          (Flt.sub (Flt.mul topPrice (Flt.ofInt (sideToSign order.side)))
            priceTolerance)) = true →
      (process cache settings baseAsset quoteAsset st order now).status
          = DoneStatus.Done ∧
        (process cache settings baseAsset quoteAsset st order now).fill = none ∧
        (process cache settings baseAsset quoteAsset st order now).state.positions
          = st.positions) ∧
    ((Flt.isNaN topPrice ||
        Flt.lt (Flt.mul order.price (Flt.ofInt (sideToSign order.side)))
          (Flt.sub (Flt.mul topPrice (Flt.ofInt (sideToSign order.side)))
            priceTolerance)) = false →
      ∀ d c, (process cache settings baseAsset quoteAsset st order now).fill
          = some (d, c) →
        d = Flt.mul (Flt.ofInt (sideToSign order.side))
            (Flt.stdMin qtyAtTop order.qty) ∧
          c = Flt.mul (Flt.neg d) topPrice) := by
  subst hqat htp
  rw [process_eq_of_valid cache settings baseAsset quoteAsset st order now
    book hb hv]
  constructor
  · intro hcr
    rw [agress_noCross cache settings.maxNOP baseAsset quoteAsset
      st.positions order _ _ hcr]
    exact ⟨rfl, rfl, rfl⟩
  · intro hcr d c hf
    exact agress_fill_eq cache settings.maxNOP baseAsset quoteAsset
      st.positions order _ _ d c hf

/-- C9: for every validated order whose side-appropriate top size is NaN
while the top price is not NaN and the order crosses, the matched
quantity `min(NaN, order.qty)` is NaN and fails the `matchedQty > 0`
test, so the order terminates `Done` with no fill and unchanged
positions. -/
theorem nan_top_size_no_fill (cache : TopOfBookCache) (settings : Settings)
    (baseAsset quoteAsset : Asset) (st : ExecutorState) (order : Order)
    (now : Int) (book : TopOfBook) (qtyAtTop topPrice : Flt)
    (hb : st.book = some book)
    (hv : validateOrder settings.minOrderGap st order now = true)
    (hqat : qtyAtTop = if order.side = Side.Buy then book.askSize else book.bidSize)
    (htp : topPrice = if order.side = Side.Buy then book.askPrice else book.bidPrice)
    (hnanq : qtyAtTop = none)
    (htpn : Flt.isNaN topPrice = false)
    (hcross : Flt.lt (Flt.mul order.price (Flt.ofInt (sideToSign order.side)))
      (Flt.sub (Flt.mul topPrice (Flt.ofInt (sideToSign order.side)))
        priceTolerance) = false) :
    (process cache settings baseAsset quoteAsset st order now).status
        = DoneStatus.Done ∧
      (process cache settings baseAsset quoteAsset st order now).fill = none ∧
      (process cache settings baseAsset quoteAsset st order now).state.positions
        = st.positions := by
  subst hqat htp
  rw [process_eq_of_valid cache settings baseAsset quoteAsset st order now
    book hb hv]
  have hmq : Flt.stdMin (if order.side = Side.Buy then book.askSize
      else book.bidSize) order.qty = none := by
    rw [hnanq]
    cases order.qty <;> simp [Flt.stdMin, Flt.lt]
  rw [agress_nonpos_qty cache settings.maxNOP baseAsset quoteAsset
    st.positions order _ _ (by simp [htpn, hcross]) (by simp [hmq, Flt.lt])]
  exact ⟨rfl, rfl, rfl⟩

/-- For a crossing order with positive matched quantity, `agress` reduces
to the NOP-gate decision on the fill `(dealt, contra)`. -/
theorem agress_qty_pos (cache : TopOfBookCache) (maxNOP : Flt)
    (baseAsset quoteAsset : Asset) (ps : Positions) (order : Order)
    (qtyAtTop topPrice : Flt)
    (hcr : (Flt.isNaN topPrice ||
      Flt.lt (Flt.mul order.price (Flt.ofInt (sideToSign order.side)))
        (Flt.sub (Flt.mul topPrice (Flt.ofInt (sideToSign order.side)))
          priceTolerance)) = false)
    (hmq : Flt.lt (some 0) (Flt.stdMin qtyAtTop order.qty) = true) :
    agress cache maxNOP baseAsset quoteAsset ps order qtyAtTop topPrice
      = (if (validateNOPChange cache maxNOP baseAsset quoteAsset ps
            (Flt.mul (Flt.ofInt (sideToSign order.side))
              (Flt.stdMin qtyAtTop order.qty))
            (Flt.mul (Flt.neg (Flt.mul (Flt.ofInt (sideToSign order.side))
              (Flt.stdMin qtyAtTop order.qty))) topPrice)).1 = true
        then ⟨DoneStatus.Done,
          some (Flt.mul (Flt.ofInt (sideToSign order.side))
              (Flt.stdMin qtyAtTop order.qty),
            Flt.mul (Flt.neg (Flt.mul (Flt.ofInt (sideToSign order.side))
              (Flt.stdMin qtyAtTop order.qty))) topPrice),
          (validateNOPChange cache maxNOP baseAsset quoteAsset ps
            (Flt.mul (Flt.ofInt (sideToSign order.side))
              (Flt.stdMin qtyAtTop order.qty))
            (Flt.mul (Flt.neg (Flt.mul (Flt.ofInt (sideToSign order.side))
              (Flt.stdMin qtyAtTop order.qty))) topPrice)).2⟩
        else ⟨DoneStatus.InternalReject, none,
          (validateNOPChange cache maxNOP baseAsset quoteAsset ps
            (Flt.mul (Flt.ofInt (sideToSign order.side))
              (Flt.stdMin qtyAtTop order.qty))
            (Flt.mul (Flt.neg (Flt.mul (Flt.ofInt (sideToSign order.side))
              (Flt.stdMin qtyAtTop order.qty))) topPrice)).2⟩) := by
  simp only [agress, hcr, Bool.false_eq_true, if_false,
    isPriceImprovementEnabled, Bool.or_true, if_true, hmq]
  by_cases hg : (validateNOPChange cache maxNOP baseAsset quoteAsset ps
      (Flt.mul (Flt.ofInt (sideToSign order.side))
        (Flt.stdMin qtyAtTop order.qty))
      (Flt.mul (Flt.neg (Flt.mul (Flt.ofInt (sideToSign order.side))
        (Flt.stdMin qtyAtTop order.qty))) topPrice)).1 = true
  · simp [hg]
  · simp [hg]

/-- With non-NaN deltas, the NOP-gate decision is exactly `newNOP <
currentNOP OR newNOP ≤ maxNOP` over the tentatively updated positions. -/
theorem validateNOPChange_gate (cache : TopOfBookCache) (maxNOP : Flt)
    (baseAsset quoteAsset : Asset) (ps : Positions) (dealt contra : Flt)
    (hd : Flt.isNaN dealt = false) (hc : Flt.isNaN contra = false) :
    (validateNOPChange cache maxNOP baseAsset quoteAsset ps dealt contra).1
      = (Flt.lt
          (getNOP (getFairPrice cache)
            (setPosition
              (setPosition ps baseAsset
                (Flt.add (getPosition ps baseAsset) dealt))
              quoteAsset
              (Flt.add (getPosition
                (setPosition ps baseAsset
                  (Flt.add (getPosition ps baseAsset) dealt)) quoteAsset)
                contra)))
          (getNOP (getFairPrice cache) ps) ||
        Flt.le
          (getNOP (getFairPrice cache)
            (setPosition
              (setPosition ps baseAsset
                (Flt.add (getPosition ps baseAsset) dealt))
              quoteAsset
              (Flt.add (getPosition
                (setPosition ps baseAsset
                  (Flt.add (getPosition ps baseAsset) dealt)) quoteAsset)
                contra)))
          maxNOP) := by
  simp [validateNOPChange, hd, hc]

/-- C1: for every validated order that crosses with positive matched
quantity, the NOP gate accepts the trade — a fill is enqueued and
`agress` returns `Done` — if and only if the NOP computed with the
positions tentatively updated by `(dealt, contra)` satisfies `newNOP <
currentNOP` OR `newNOP ≤ maxNOP`; when the gate rejects, the result is
`InternalReject` with no fill. -/
theorem nop_gate_decides_fill (cache : TopOfBookCache) (settings : Settings)
    (baseAsset quoteAsset : Asset) (st : ExecutorState) (order : Order)
    (now : Int) (book : TopOfBook) (qtyAtTop topPrice : Flt)
    (dealt contra newNOP currentNOP : Flt)
    (hb : st.book = some book)
    (hv : validateOrder settings.minOrderGap st order now = true)
    (hqat : qtyAtTop = if order.side = Side.Buy then book.askSize else book.bidSize)
    (htp : topPrice = if order.side = Side.Buy then book.askPrice else book.bidPrice)
    (hcr : (Flt.isNaN topPrice ||
      Flt.lt (Flt.mul order.price (Flt.ofInt (sideToSign order.side)))
        (Flt.sub (Flt.mul topPrice (Flt.ofInt (sideToSign order.side)))
          priceTolerance)) = false)
    (hmq : Flt.lt (some 0) (Flt.stdMin qtyAtTop order.qty) = true)
    (hd : dealt = Flt.mul (Flt.ofInt (sideToSign order.side))
      (Flt.stdMin qtyAtTop order.qty))
    (hc : contra = Flt.mul (Flt.neg dealt) topPrice)
    (hcur : currentNOP = getNOP (getFairPrice cache) st.positions)
    (hnew : newNOP = getNOP (getFairPrice cache)
      (setPosition
        (setPosition st.positions baseAsset
          (Flt.add (getPosition st.positions baseAsset) dealt))
        quoteAsset
        (Flt.add (getPosition
          (setPosition st.positions baseAsset
            (Flt.add (getPosition st.positions baseAsset) dealt)) quoteAsset)
          contra))) :
    (((process cache settings baseAsset quoteAsset st order now).status
          = DoneStatus.Done ∧
        (process cache settings baseAsset quoteAsset st order now).fill.isSome
          = true) ↔
      (Flt.lt newNOP currentNOP = true ∨ Flt.le newNOP settings.maxNOP = true)) ∧
    ((Flt.lt newNOP currentNOP || Flt.le newNOP settings.maxNOP) = false →
      (process cache settings baseAsset quoteAsset st order now).status
          = DoneStatus.InternalReject ∧
        (process cache settings baseAsset quoteAsset st order now).fill
          = none) := by
  obtain ⟨mq, hmqv, hmqpos⟩ := flt_lt_zero_elim hmq
  have htpn : Flt.isNaN topPrice = false := (Bool.or_eq_false_iff.1 hcr).1
  obtain ⟨tp, htpv⟩ := flt_not_nan_elim htpn
  have hdn : Flt.isNaN dealt = false := by
    rw [hd, hmqv]
    cases order.side <;> simp [Flt.mul, Flt.ofInt, Flt.isNaN, sideToSign]
  have hcn : Flt.isNaN contra = false := by
    obtain ⟨dv, hdv⟩ := flt_not_nan_elim hdn
    rw [hc, hdv, htpv]
    simp [Flt.mul, Flt.neg, Flt.isNaN]
  have hgate := validateNOPChange_gate cache settings.maxNOP baseAsset
    quoteAsset st.positions dealt contra hdn hcn
  subst hnew
  subst hcur
  subst hc
  subst hd
  subst hqat
  subst htp
  rw [process_eq_of_valid cache settings baseAsset quoteAsset st order now
    book hb hv]
  rw [agress_qty_pos cache settings.maxNOP baseAsset quoteAsset
    st.positions order _ _ hcr hmq]
  rw [hgate] at *
  by_cases hg : (Flt.lt
      (getNOP (getFairPrice cache)
        (setPosition
          (setPosition st.positions baseAsset
            (Flt.add (getPosition st.positions baseAsset)
              (Flt.mul (Flt.ofInt (sideToSign order.side))
                (Flt.stdMin (if order.side = Side.Buy then book.askSize
                  else book.bidSize) order.qty))))
          quoteAsset
          (Flt.add (getPosition
            (setPosition st.positions baseAsset
              (Flt.add (getPosition st.positions baseAsset)
                (Flt.mul (Flt.ofInt (sideToSign order.side))
                  (Flt.stdMin (if order.side = Side.Buy then book.askSize
                    else book.bidSize) order.qty)))) quoteAsset)
            (Flt.mul (Flt.neg (Flt.mul (Flt.ofInt (sideToSign order.side))
              (Flt.stdMin (if order.side = Side.Buy then book.askSize
                else book.bidSize) order.qty)))
              (if order.side = Side.Buy then book.askPrice
                else book.bidPrice)))))
      (getNOP (getFairPrice cache) st.positions) ||
      Flt.le
        (getNOP (getFairPrice cache)
          (setPosition
            (setPosition st.positions baseAsset
              (Flt.add (getPosition st.positions baseAsset)
                (Flt.mul (Flt.ofInt (sideToSign order.side))
                  (Flt.stdMin (if order.side = Side.Buy then book.askSize
                    else book.bidSize) order.qty))))
            quoteAsset
            (Flt.add (getPosition
              (setPosition st.positions baseAsset
                (Flt.add (getPosition st.positions baseAsset)
                  (Flt.mul (Flt.ofInt (sideToSign order.side))
                    (Flt.stdMin (if order.side = Side.Buy then book.askSize
                      else book.bidSize) order.qty)))) quoteAsset)
              (Flt.mul (Flt.neg (Flt.mul (Flt.ofInt (sideToSign order.side))
                (Flt.stdMin (if order.side = Side.Buy then book.askSize
                  else book.bidSize) order.qty)))
                (if order.side = Side.Buy then book.askPrice
                  else book.bidPrice)))))
        settings.maxNOP) = true
  · constructor
    · rw [if_pos hg]
      simp only [Bool.or_eq_true] at hg
      exact ⟨fun _ => hg, fun _ => ⟨rfl, rfl⟩⟩
    · intro hfalse
      rw [hfalse] at hg
      simp at hg
  · rw [Bool.not_eq_true] at hg
    constructor
    · rw [if_neg (by simp [hg])]
      constructor
      · rintro ⟨h, _⟩
        simp at h
      · intro h
        rcases h with h | h <;> simp [h] at hg
    · intro _
      rw [if_neg (by simp [hg])]
      exact ⟨rfl, rfl⟩

/-- Witness for C2 at a concrete validated NaN-price IOC Buy against a
unit book: price improvement applies unconditionally. -/
theorem matching_crossing_and_price_witness :
    validateOrder (0 : Int) ⟨some ⟨some 1, some 1, some 1, some 1⟩, 0, []⟩
        ⟨1, Side.Buy, none, some 1, TIF.IOC⟩ 0 = true ∧
    (((Flt.isNaN (some 1) ||
        Flt.lt (Flt.mul none (Flt.ofInt (sideToSign Side.Buy)))
          (Flt.sub (Flt.mul (some 1) (Flt.ofInt (sideToSign Side.Buy)))
            priceTolerance)) = true →
      (process [] ⟨0, 0, 0, none⟩ "EUR" "USD"
          ⟨some ⟨some 1, some 1, some 1, some 1⟩, 0, []⟩
          ⟨1, Side.Buy, none, some 1, TIF.IOC⟩ 0).status = DoneStatus.Done ∧
        (process [] ⟨0, 0, 0, none⟩ "EUR" "USD"
          ⟨some ⟨some 1, some 1, some 1, some 1⟩, 0, []⟩
          ⟨1, Side.Buy, none, some 1, TIF.IOC⟩ 0).fill = none ∧
        (process [] ⟨0, 0, 0, none⟩ "EUR" "USD"
          ⟨some ⟨some 1, some 1, some 1, some 1⟩, 0, []⟩
          ⟨1, Side.Buy, none, some 1, TIF.IOC⟩ 0).state.positions = []) ∧
    ((Flt.isNaN (some 1) ||
        Flt.lt (Flt.mul none (Flt.ofInt (sideToSign Side.Buy)))
          (Flt.sub (Flt.mul (some 1) (Flt.ofInt (sideToSign Side.Buy)))
            priceTolerance)) = false →
      ∀ d c, (process [] ⟨0, 0, 0, none⟩ "EUR" "USD"
          ⟨some ⟨some 1, some 1, some 1, some 1⟩, 0, []⟩
          ⟨1, Side.Buy, none, some 1, TIF.IOC⟩ 0).fill = some (d, c) →
        d = Flt.mul (Flt.ofInt (sideToSign Side.Buy))
            (Flt.stdMin (some 1) (some 1)) ∧
          c = Flt.mul (Flt.neg d) (some 1))) :=
  ⟨by decide,
    matching_crossing_and_price [] ⟨0, 0, 0, none⟩ "EUR" "USD"
      ⟨some ⟨some 1, some 1, some 1, some 1⟩, 0, []⟩
      ⟨1, Side.Buy, none, some 1, TIF.IOC⟩ 0 ⟨some 1, some 1, some 1, some 1⟩
      (some 1) (some 1) rfl (by decide) rfl rfl⟩

/-- Witness for C9 at a concrete validated NaN-price IOC Buy against a
book whose ask size is NaN: no fill, positions unchanged. -/
theorem nan_top_size_no_fill_witness :
    validateOrder (0 : Int) ⟨some ⟨some 1, some 1, none, some 1⟩, 0, []⟩
        ⟨1, Side.Buy, none, some 1, TIF.IOC⟩ 0 = true ∧
    (process [] ⟨0, 0, 0, none⟩ "EUR" "USD"
        ⟨some ⟨some 1, some 1, none, some 1⟩, 0, []⟩
        ⟨1, Side.Buy, none, some 1, TIF.IOC⟩ 0).status = DoneStatus.Done ∧
      (process [] ⟨0, 0, 0, none⟩ "EUR" "USD"
        ⟨some ⟨some 1, some 1, none, some 1⟩, 0, []⟩
        ⟨1, Side.Buy, none, some 1, TIF.IOC⟩ 0).fill = none ∧
      (process [] ⟨0, 0, 0, none⟩ "EUR" "USD"
        ⟨some ⟨some 1, some 1, none, some 1⟩, 0, []⟩
        ⟨1, Side.Buy, none, some 1, TIF.IOC⟩ 0).state.positions = [] :=
  ⟨by decide,
    nan_top_size_no_fill [] ⟨0, 0, 0, none⟩ "EUR" "USD"
      ⟨some ⟨some 1, some 1, none, some 1⟩, 0, []⟩
      ⟨1, Side.Buy, none, some 1, TIF.IOC⟩ 0 ⟨some 1, some 1, none, some 1⟩
      none (some 1) rfl (by decide) rfl rfl rfl rfl (by decide)⟩

/-- Witness for C1 at a concrete crossing NaN-price IOC Buy of 500000
EUR/USD against a 1000000-deep book, with zero initial positions: the
gate decision is exactly the NOP test on the tentatively updated
positions. -/
theorem nop_gate_decides_fill_witness :
    validateOrder (5 : Int)
        ⟨some ⟨some 1000000, some (11/10), some 1000000, some (111/100)⟩, 0,
          [("EUR", some 0), ("USD", some 0)]⟩
        ⟨1, Side.Buy, none, some 500000, TIF.IOC⟩ 10 = true ∧
    Flt.lt (some 0) (Flt.stdMin (some 1000000) (some 500000)) = true ∧
    ((((process [("EUR/USD",
            ⟨some 1000000, some (11/10), some 1000000, some (111/100)⟩)]
          ⟨1, 1, 5, some 10000000⟩ "EUR" "USD"
          ⟨some ⟨some 1000000, some (11/10), some 1000000, some (111/100)⟩, 0,
            [("EUR", some 0), ("USD", some 0)]⟩
          ⟨1, Side.Buy, none, some 500000, TIF.IOC⟩ 10).status
            = DoneStatus.Done ∧
        (process [("EUR/USD",
            ⟨some 1000000, some (11/10), some 1000000, some (111/100)⟩)]
          ⟨1, 1, 5, some 10000000⟩ "EUR" "USD"
          ⟨some ⟨some 1000000, some (11/10), some 1000000, some (111/100)⟩, 0,
            [("EUR", some 0), ("USD", some 0)]⟩
          ⟨1, Side.Buy, none, some 500000, TIF.IOC⟩ 10).fill.isSome
            = true) ↔
      (Flt.lt
          (getNOP (getFairPrice [("EUR/USD",
              ⟨some 1000000, some (11/10), some 1000000, some (111/100)⟩)])
            (setPosition
              (setPosition [("EUR", some 0), ("USD", some 0)] "EUR"
                (Flt.add (getPosition [("EUR", some 0), ("USD", some 0)] "EUR")
                  (Flt.mul (Flt.ofInt (sideToSign Side.Buy))
                    (Flt.stdMin (some 1000000) (some 500000)))))
              "USD"
              (Flt.add (getPosition
                (setPosition [("EUR", some 0), ("USD", some 0)] "EUR"
                  (Flt.add (getPosition [("EUR", some 0), ("USD", some 0)] "EUR")
                    (Flt.mul (Flt.ofInt (sideToSign Side.Buy))
                      (Flt.stdMin (some 1000000) (some 500000))))) "USD")
                (Flt.mul (Flt.neg (Flt.mul (Flt.ofInt (sideToSign Side.Buy))
                  (Flt.stdMin (some 1000000) (some 500000))))
                  (some (111/100))))))
          (getNOP (getFairPrice [("EUR/USD",
              ⟨some 1000000, some (11/10), some 1000000, some (111/100)⟩)])
            [("EUR", some 0), ("USD", some 0)]) = true ∨
        Flt.le
          (getNOP (getFairPrice [("EUR/USD",
              ⟨some 1000000, some (11/10), some 1000000, some (111/100)⟩)])
            (setPosition
              (setPosition [("EUR", some 0), ("USD", some 0)] "EUR"
                (Flt.add (getPosition [("EUR", some 0), ("USD", some 0)] "EUR")
                  (Flt.mul (Flt.ofInt (sideToSign Side.Buy))
                    (Flt.stdMin (some 1000000) (some 500000)))))
              "USD"
              (Flt.add (getPosition
                (setPosition [("EUR", some 0), ("USD", some 0)] "EUR"
                  (Flt.add (getPosition [("EUR", some 0), ("USD", some 0)] "EUR")
                    (Flt.mul (Flt.ofInt (sideToSign Side.Buy))
                      (Flt.stdMin (some 1000000) (some 500000))))) "USD")
                (Flt.mul (Flt.neg (Flt.mul (Flt.ofInt (sideToSign Side.Buy))
                  (Flt.stdMin (some 1000000) (some 500000))))
                  (some (111/100))))))
          (some 10000000) = true)) ∧
    ((Flt.lt
        (getNOP (getFairPrice [("EUR/USD",
            ⟨some 1000000, some (11/10), some 1000000, some (111/100)⟩)])
          (setPosition
            (setPosition [("EUR", some 0), ("USD", some 0)] "EUR"
              (Flt.add (getPosition [("EUR", some 0), ("USD", some 0)] "EUR")
                (Flt.mul (Flt.ofInt (sideToSign Side.Buy))
                  (Flt.stdMin (some 1000000) (some 500000)))))
            "USD"
            (Flt.add (getPosition
              (setPosition [("EUR", some 0), ("USD", some 0)] "EUR"
                (Flt.add (getPosition [("EUR", some 0), ("USD", some 0)] "EUR")
                  (Flt.mul (Flt.ofInt (sideToSign Side.Buy))
                    (Flt.stdMin (some 1000000) (some 500000))))) "USD")
              (Flt.mul (Flt.neg (Flt.mul (Flt.ofInt (sideToSign Side.Buy))
                (Flt.stdMin (some 1000000) (some 500000))))
                (some (111/100))))))
        (getNOP (getFairPrice [("EUR/USD",
            ⟨some 1000000, some (11/10), some 1000000, some (111/100)⟩)])
          [("EUR", some 0), ("USD", some 0)]) ||
      Flt.le
        (getNOP (getFairPrice [("EUR/USD",
            ⟨some 1000000, some (11/10), some 1000000, some (111/100)⟩)])
          (setPosition
            (setPosition [("EUR", some 0), ("USD", some 0)] "EUR"
              (Flt.add (getPosition [("EUR", some 0), ("USD", some 0)] "EUR")
                (Flt.mul (Flt.ofInt (sideToSign Side.Buy))
                  (Flt.stdMin (some 1000000) (some 500000)))))
            "USD"
            (Flt.add (getPosition
              (setPosition [("EUR", some 0), ("USD", some 0)] "EUR"
                (Flt.add (getPosition [("EUR", some 0), ("USD", some 0)] "EUR")
                  (Flt.mul (Flt.ofInt (sideToSign Side.Buy))
                    (Flt.stdMin (some 1000000) (some 500000))))) "USD")
              (Flt.mul (Flt.neg (Flt.mul (Flt.ofInt (sideToSign Side.Buy))
                (Flt.stdMin (some 1000000) (some 500000))))
                (some (111/100))))))
        (some 10000000)) = false →
      (process [("EUR/USD",
          ⟨some 1000000, some (11/10), some 1000000, some (111/100)⟩)]
        ⟨1, 1, 5, some 10000000⟩ "EUR" "USD"
        ⟨some ⟨some 1000000, some (11/10), some 1000000, some (111/100)⟩, 0,
          [("EUR", some 0), ("USD", some 0)]⟩
        ⟨1, Side.Buy, none, some 500000, TIF.IOC⟩ 10).status
          = DoneStatus.InternalReject ∧
        (process [("EUR/USD",
            ⟨some 1000000, some (11/10), some 1000000, some (111/100)⟩)]
          ⟨1, 1, 5, some 10000000⟩ "EUR" "USD"
          ⟨some ⟨some 1000000, some (11/10), some 1000000, some (111/100)⟩, 0,
            [("EUR", some 0), ("USD", some 0)]⟩
          ⟨1, Side.Buy, none, some 500000, TIF.IOC⟩ 10).fill = none)) :=
  ⟨by decide, by decide,
    nop_gate_decides_fill
      [("EUR/USD", ⟨some 1000000, some (11/10), some 1000000, some (111/100)⟩)]
      ⟨1, 1, 5, some 10000000⟩ "EUR" "USD"
      ⟨some ⟨some 1000000, some (11/10), some 1000000, some (111/100)⟩, 0,
        [("EUR", some 0), ("USD", some 0)]⟩
      ⟨1, Side.Buy, none, some 500000, TIF.IOC⟩ 10
      ⟨some 1000000, some (11/10), some 1000000, some (111/100)⟩
      (some 1000000) (some (111/100))
      (Flt.mul (Flt.ofInt (sideToSign Side.Buy))
        (Flt.stdMin (some 1000000) (some 500000)))
      (Flt.mul (Flt.neg (Flt.mul (Flt.ofInt (sideToSign Side.Buy))
        (Flt.stdMin (some 1000000) (some 500000)))) (some (111/100)))
      (getNOP (getFairPrice [("EUR/USD",
          ⟨some 1000000, some (11/10), some 1000000, some (111/100)⟩)])
        (setPosition
          (setPosition [("EUR", some 0), ("USD", some 0)] "EUR"
            (Flt.add (getPosition [("EUR", some 0), ("USD", some 0)] "EUR")
              (Flt.mul (Flt.ofInt (sideToSign Side.Buy))
                (Flt.stdMin (some 1000000) (some 500000)))))
          "USD"
          (Flt.add (getPosition
            (setPosition [("EUR", some 0), ("USD", some 0)] "EUR"
              (Flt.add (getPosition [("EUR", some 0), ("USD", some 0)] "EUR")
                (Flt.mul (Flt.ofInt (sideToSign Side.Buy))
                  (Flt.stdMin (some 1000000) (some 500000))))) "USD")
            (Flt.mul (Flt.neg (Flt.mul (Flt.ofInt (sideToSign Side.Buy))
              (Flt.stdMin (some 1000000) (some 500000))))
              (some (111/100))))))
      (getNOP (getFairPrice [("EUR/USD",
          ⟨some 1000000, some (11/10), some 1000000, some (111/100)⟩)])
        [("EUR", some 0), ("USD", some 0)])
      rfl (by decide) rfl rfl (by decide) (by decide)
      rfl rfl rfl rfl⟩

/-- C8: the min-order-gap clock `lastOrderSendTime` is updated exactly
when an order passes validation, before matching is attempted; an order
that passes validation but produces no fill (or is NOP-rejected) still
resets the clock, an order failing validation leaves it untouched, and
any subsequent order processed less than `minOrderGap` after a validated
one is `InternalReject`-ed with no fill and no state change. -/
theorem min_order_gap_clock (cache : TopOfBookCache) (settings : Settings)
    (baseAsset quoteAsset : Asset) (st : ExecutorState) (o1 o2 : Order)
    (t1 t2 : Int) :
    (validateOrder settings.minOrderGap st o1 t1 = true →
      (process cache settings baseAsset quoteAsset st o1 t1).state.lastOrderSendTime
        = t1) ∧
    (validateOrder settings.minOrderGap st o1 t1 = false →
      process cache settings baseAsset quoteAsset st o1 t1
        = ⟨st, DoneStatus.InternalReject, none⟩) ∧
    (validateOrder settings.minOrderGap st o1 t1 = true →
      t2 - t1 < settings.minOrderGap →
      process cache settings baseAsset quoteAsset
          (process cache settings baseAsset quoteAsset st o1 t1).state o2 t2
        = ⟨(process cache settings baseAsset quoteAsset st o1 t1).state,
            DoneStatus.InternalReject, none⟩) := by
  refine ⟨?_, ?_, ?_⟩
  · intro hv1
    obtain ⟨book, hb⟩ := validateOrder_book hv1
    rw [process_eq_of_valid cache settings baseAsset quoteAsset st o1 t1
      book hb hv1]
  · intro hv1
    exact process_eq_of_invalid cache settings baseAsset quoteAsset st o1 t1 hv1
  · intro hv1 hgap
    obtain ⟨book, hb⟩ := validateOrder_book hv1
    have h1 : (process cache settings baseAsset quoteAsset st o1
        t1).state.lastOrderSendTime = t1 := by
      rw [process_eq_of_valid cache settings baseAsset quoteAsset st o1 t1
        book hb hv1]
    have hv2 : validateOrder settings.minOrderGap
        (process cache settings baseAsset quoteAsset st o1 t1).state o2 t2
        = false := by
      unfold validateOrder
      rw [h1, decide_eq_false (by omega : ¬ t2 - t1 ≥ settings.minOrderGap),
        Bool.and_false]
    exact process_eq_of_invalid cache settings baseAsset quoteAsset _ o2 t2 hv2

/-- Witness for C8 at a concrete pair of orders 500ns apart with a
1000ns minimum gap: the first order validates and stamps the clock, the
second is rejected without touching the state. -/
theorem min_order_gap_clock_witness :
    validateOrder (1000 : Int)
        ⟨some ⟨none, none, none, none⟩, 0, []⟩
        ⟨1, Side.Buy, none, some 1, TIF.IOC⟩ 1000 = true ∧
      (1500 : Int) - 1000 < 1000 ∧
      (process [] ⟨1, 1, 1000, none⟩ "EUR" "USD"
          ⟨some ⟨none, none, none, none⟩, 0, []⟩
          ⟨1, Side.Buy, none, some 1, TIF.IOC⟩ 1000).state.lastOrderSendTime
        = 1000 ∧
      process [] ⟨1, 1, 1000, none⟩ "EUR" "USD"
          (process [] ⟨1, 1, 1000, none⟩ "EUR" "USD"
            ⟨some ⟨none, none, none, none⟩, 0, []⟩
            ⟨1, Side.Buy, none, some 1, TIF.IOC⟩ 1000).state
          ⟨2, Side.Buy, none, some 1, TIF.IOC⟩ 1500
        = ⟨(process [] ⟨1, 1, 1000, none⟩ "EUR" "USD"
            ⟨some ⟨none, none, none, none⟩, 0, []⟩
            ⟨1, Side.Buy, none, some 1, TIF.IOC⟩ 1000).state,
            DoneStatus.InternalReject, none⟩ :=
  ⟨by decide, by decide,
    (min_order_gap_clock [] ⟨1, 1, 1000, none⟩ "EUR" "USD"
      ⟨some ⟨none, none, none, none⟩, 0, []⟩
      ⟨1, Side.Buy, none, some 1, TIF.IOC⟩
      ⟨2, Side.Buy, none, some 1, TIF.IOC⟩ 1000 1500).1 (by decide),
    (min_order_gap_clock [] ⟨1, 1, 1000, none⟩ "EUR" "USD"
      ⟨some ⟨none, none, none, none⟩, 0, []⟩
      ⟨1, Side.Buy, none, some 1, TIF.IOC⟩
      ⟨2, Side.Buy, none, some 1, TIF.IOC⟩ 1000 1500).2.2 (by decide)
      (by decide)⟩

/-- C3 counterexample: from the initial counter value 0, one `sendOrder`
advances `lastOrderId` to 1, not to 0 + 2: the counter is pre-incremented
by one per order, not two. -/
theorem order_id_step_cex :
    (sendOrderId 0).2 = 1 ∧ (sendOrderId 0).2 ≠ 0 + 2 := by
  constructor <;> decide

/-- C3 amended: each `sendOrder` advances `lastOrderId` by one (modulo
`uint64`) and hands that value to the caller, so absent wraparound
successive calls receive strictly increasing ids of alternating parity —
odd and even across successive calls. -/
theorem order_id_monotonic_alternating (c : Nat) (h : c + 2 < UINT64_MOD) :
    (sendOrderId c).1 = c + 1 ∧ (sendOrderId c).2 = c + 1 ∧
      (sendOrderId (sendOrderId c).2).1 = c + 2 ∧
      (sendOrderId c).1 < (sendOrderId (sendOrderId c).2).1 ∧
      (sendOrderId c).1 % 2 ≠ (sendOrderId (sendOrderId c).2).1 % 2 := by
  have h1 : c + 1 < UINT64_MOD := by omega
  have e1 : (c + 1) % UINT64_MOD = c + 1 := Nat.mod_eq_of_lt h1
  have e2 : (c + 1 + 1) % UINT64_MOD = c + 2 := by
    rw [show c + 1 + 1 = c + 2 by omega]; exact Nat.mod_eq_of_lt h
  refine ⟨?_, ?_, ?_, ?_, ?_⟩ <;>
    simp [sendOrderId, getNextOrderId, e1, e2] <;> omega

/-- Witness for C3 amended at the initial counter value. -/
theorem order_id_monotonic_alternating_witness :
    (0 : Nat) + 2 < UINT64_MOD ∧
      ((sendOrderId 0).1 = 0 + 1 ∧ (sendOrderId 0).2 = 0 + 1 ∧
        (sendOrderId (sendOrderId 0).2).1 = 0 + 2 ∧
        (sendOrderId 0).1 < (sendOrderId (sendOrderId 0).2).1 ∧
        (sendOrderId 0).1 % 2 ≠ (sendOrderId (sendOrderId 0).2).1 % 2) :=
  ⟨by decide, order_id_monotonic_alternating 0 (by decide)⟩

/-- createEntry leaves the updates flag untouched. -/
theorem createEntryDC_updates (s : DCState) (t : String) :
    (createEntryDC s t).updatesReceived = s.updatesReceived := by
  cases h : s.entries.lookup t <;>
    simp [createEntryDC, getCreateEntry, h]

/-- subscribe leaves the updates flag untouched. -/
theorem subscribeDC_updates (s : DCState) (t : String) (cb : Callback) :
    (subscribeDC s t cb).updatesReceived = s.updatesReceived := by
  cases h : s.entries.lookup t <;> simp [subscribeDC, h]

/-- publish sets the updates flag exactly when the entry's callback is a
non-null `std::function`. -/
theorem publishDC_updates (s : DCState) (t : String) :
    (publishDC s t).updatesReceived
      = (s.updatesReceived || nonNullPublishOccurs s t) := by
  cases h : s.entries.lookup t with
  | none => simp [publishDC, nonNullPublishOccurs, h]
  | some e =>
    by_cases hc : e.callback = Callback.nullFn <;>
      simp [publishDC, nonNullPublishOccurs, h, hc]

/-- C4 counterexample: an entry created by `createEntry` and never
subscribed holds the initial no-op callback, which is a non-null
`std::function`; a single publish on it makes `endBatch` deliver
`endOfBatch`, while the claim (non-no-op callback required) predicts no
delivery. -/
theorem direct_consumer_batch_cex :
    (runDC ⟨[], false⟩
        [DCOp.createEntry "T", DCOp.publish "T", DCOp.endBatch]).2 = [true] ∧
      specDeliveries subscribedPublishOccurs ⟨[], false⟩ false
        [DCOp.createEntry "T", DCOp.publish "T", DCOp.endBatch] = [false] := by
  constructor <;> rfl

/-- C4 amended: for every `DirectConsumer` and every batch interval,
`endBatch` delivers `subscriber.endOfBatch` if and only if at least one
`publish` with a non-null callback occurred on one of its entries since
the previous batch boundary — the initial no-op callback installed by
`createEntry` is a non-null `std::function` and counts; only a null
callback installed by `subscribe` does not. -/
theorem direct_consumer_batch_amended (ops : List DCOp) (s : DCState) :
    (runDC s ops).2
      = specDeliveries nonNullPublishOccurs s s.updatesReceived ops := by
  induction ops generalizing s with
  | nil => rfl
  | cons op rest ih =>
    cases op with
    | createEntry t =>
      simpa [runDC, runDCOp, specDeliveries, createEntryDC_updates]
        using ih (createEntryDC s t) ▸ (createEntryDC_updates s t ▸ rfl)
    | subscribe t cb =>
      simpa [runDC, runDCOp, specDeliveries, subscribeDC_updates]
        using ih (subscribeDC s t cb) ▸ (subscribeDC_updates s t cb ▸ rfl)
    | publish t =>
      have := ih (publishDC s t)
      rw [publishDC_updates] at this
      simpa [runDC, runDCOp, specDeliveries] using this
    | endBatch =>
      have := ih (endBatchDC s).1
      simpa [runDC, runDCOp, specDeliveries, endBatchDC] using this

/-- publish leaves the input stream untouched. -/
theorem publishMDR_input (st : MDRState) :
    (publishMDR st).1.input = st.input := by
  cases h : st.records.lookup st.nextLineSym <;> simp [publishMDR, h]

/-- publish leaves the lookahead timestamp untouched. -/
theorem publishMDR_ts (st : MDRState) :
    (publishMDR st).1.nextLineTs = st.nextLineTs := by
  cases h : st.records.lookup st.nextLineSym <;> simp [publishMDR, h]

/-- publish leaves the lookahead symbol untouched. -/
theorem publishMDR_sym (st : MDRState) :
    (publishMDR st).1.nextLineSym = st.nextLineSym := by
  cases h : st.records.lookup st.nextLineSym <;> simp [publishMDR, h]

/-- publish leaves the lookahead book untouched. -/
theorem publishMDR_book (st : MDRState) :
    (publishMDR st).1.nextLineBook = st.nextLineBook := by
  cases h : st.records.lookup st.nextLineSym <;> simp [publishMDR, h]

/-- The publish step emits exactly one `publish` action, carrying the
lookahead record. -/
theorem publishMDR_filter (st : MDRState) :
    (publishMDR st).2.filter isPublishEv
      = [MDEv.publish st.nextLineSym st.nextLineBook] := by
  cases h : st.records.lookup st.nextLineSym <;>
    simp [publishMDR, h, isPublishEv]

/-- The publish step never emits `endBatch`. -/
theorem publishMDR_count_endBatch (st : MDRState) :
    (publishMDR st).2.count MDEv.endBatch = 0 := by
  cases h : st.records.lookup st.nextLineSym <;>
    simp [publishMDR, h, List.count_cons, List.count_nil]

/-- The do-while of `dispatchNextEvent` publishes, in stream order, the
lookahead and then every consecutive input record whose timestamp equals
`startTime`, emits no `endBatch`, and leaves the lookahead at the first
record beyond that run (or at the EOF sentinel). -/
theorem dispatchLoopMDR_spec (st : MDRState) (t0 : Int)
    (ht : st.nextLineTs = t0) (h0 : t0 < TS_MAX)
    (hin : ∀ r ∈ st.input, r.ts < TS_MAX) :
    ((dispatchLoopMDR st t0).2.filter isPublishEv
        = ((⟨st.nextLineTs, st.nextLineSym, st.nextLineBook⟩ : MDRec) ::
            st.input.takeWhile (fun r => decide (r.ts = t0))).map
          (fun r => MDEv.publish r.sym r.book)) ∧
      ((dispatchLoopMDR st t0).2.count MDEv.endBatch = 0) ∧
      (getNextEventTime (dispatchLoopMDR st t0).1
        = match st.input.dropWhile (fun r => decide (r.ts = t0)) with
          | [] => TS_MAX
          | r :: _ => r.ts) := by
  suffices h : ∀ n (st : MDRState), st.input.length = n →
      st.nextLineTs = t0 → (∀ r ∈ st.input, r.ts < TS_MAX) →
      ((dispatchLoopMDR st t0).2.filter isPublishEv
        = ((⟨st.nextLineTs, st.nextLineSym, st.nextLineBook⟩ : MDRec) ::
            st.input.takeWhile (fun r => decide (r.ts = t0))).map
          (fun r => MDEv.publish r.sym r.book)) ∧
      ((dispatchLoopMDR st t0).2.count MDEv.endBatch = 0) ∧
      (getNextEventTime (dispatchLoopMDR st t0).1
        = match st.input.dropWhile (fun r => decide (r.ts = t0)) with
          | [] => TS_MAX
          | r :: _ => r.ts) from
    h st.input.length st rfl ht hin
  intro n
  induction n using Nat.strong_induction_on with
  | _ n ih =>
  intro st hn ht hin
  rw [dispatchLoopMDR]
  rcases hi : st.input with _ | ⟨r, rest⟩
  · have hst2 : readNextLine (publishMDR st).1
        = ⟨TS_MAX, (publishMDR st).1.nextLineSym,
            (publishMDR st).1.nextLineBook, (publishMDR st).1.input,
            (publishMDR st).1.records⟩ := by
      simp [readNextLine, publishMDR_input, hi]
    rw [hst2]
    have hguard : ¬ ((getNextEventTime
        (⟨TS_MAX, (publishMDR st).1.nextLineSym,
          (publishMDR st).1.nextLineBook, (publishMDR st).1.input,
          (publishMDR st).1.records⟩ : MDRState) = t0) ∧ t0 < TS_MAX) := by
      simp only [getNextEventTime]
      rintro ⟨h1, h2⟩
      omega
    rw [if_neg hguard]
    refine ⟨?_, ?_, ?_⟩
    · simp [publishMDR_filter, hi]
    · simp [publishMDR_count_endBatch]
    · simp [getNextEventTime, hi]
  · have hst2 : readNextLine (publishMDR st).1
        = ⟨r.ts, r.sym, r.book, rest, (publishMDR st).1.records⟩ := by
      simp [readNextLine, publishMDR_input, hi]
    rw [hst2]
    by_cases hr : r.ts = t0
    · have hguard : (getNextEventTime
          (⟨r.ts, r.sym, r.book, rest, (publishMDR st).1.records⟩ : MDRState)
            = t0) ∧ t0 < TS_MAX :=
        ⟨by simpa [getNextEventTime] using hr, h0⟩
      rw [if_pos hguard]
      have hrec := ih rest.length (by rw [hi] at hn; simp at hn; omega)
        ⟨r.ts, r.sym, r.book, rest, (publishMDR st).1.records⟩ rfl
        (by simpa [getNextEventTime] using hr)
        (fun x hx => hin x (by rw [hi]; exact List.mem_cons_of_mem r hx))
      refine ⟨?_, ?_, ?_⟩
      · rw [List.filter_append, publishMDR_filter, hrec.1]
        simp [hi, List.takeWhile, hr]
      · rw [List.count_append, publishMDR_count_endBatch, hrec.2.1]
      · rw [hrec.2.2]
        simp [hi, List.dropWhile, hr]
    · have hguard : ¬ ((getNextEventTime
          (⟨r.ts, r.sym, r.book, rest, (publishMDR st).1.records⟩ : MDRState)
            = t0) ∧ t0 < TS_MAX) := by
        simp only [getNextEventTime]
        rintro ⟨h1, _⟩
        exact hr h1
      rw [if_neg hguard]
      refine ⟨?_, ?_, ?_⟩
      · simp [publishMDR_filter, hi, List.takeWhile, hr]
      · simp [publishMDR_count_endBatch]
      · simp [getNextEventTime, hi, List.dropWhile, hr]

/-- C7: for every non-exhausted input, one `dispatchNextEvent` publishes,
in stream order, every consecutive pending record whose timestamp equals
the first pending record's timestamp, then calls `publisher.endBatch()`
exactly once (as the last action); afterwards `getNextEventTime()`
returns the next pending record's timestamp, or `TimestampNs::MAX` once
the input stream is at EOF. -/
theorem replayer_dispatch_batches (st : MDRState)
    (h0 : getNextEventTime st < TS_MAX)
    (hin : ∀ r ∈ st.input, r.ts < TS_MAX) :
    ((dispatchNextEventMDR st).2.filter isPublishEv
        = ((⟨st.nextLineTs, st.nextLineSym, st.nextLineBook⟩ : MDRec) ::
            st.input.takeWhile (fun r => decide (r.ts = st.nextLineTs))).map
          (fun r => MDEv.publish r.sym r.book)) ∧
      ((dispatchNextEventMDR st).2.count MDEv.endBatch = 1) ∧
      ((dispatchNextEventMDR st).2.getLast? = some MDEv.endBatch) ∧
      (getNextEventTime (dispatchNextEventMDR st).1
        = match st.input.dropWhile
            (fun r => decide (r.ts = st.nextLineTs)) with
          | [] => TS_MAX
          | r :: _ => r.ts) := by
  have hspec := dispatchLoopMDR_spec st st.nextLineTs rfl h0 hin
  unfold dispatchNextEventMDR
  rw [if_pos h0]
  simp only [getNextEventTime] at hspec ⊢
  refine ⟨?_, ?_, ?_, ?_⟩
  · rw [List.filter_append, hspec.1]
    simp [isPublishEv]
  · rw [List.count_append, hspec.2.1]
    simp [List.count_cons, List.count_nil]
  · simp [List.getLast?_concat]
  · exact hspec.2.2

/-- Witness for C7 on a concrete three-record stream with two records at
the batch timestamp: both are published, `endBatch` fires once and last,
and the lookahead lands on the later record. -/
theorem replayer_dispatch_batches_witness :
    getNextEventTime (⟨5, "A", ⟨some 1, some 1, some 1, some 1⟩,
        [⟨5, "B", ⟨some 2, some 2, some 2, some 2⟩⟩,
          ⟨7, "A", ⟨some 3, some 3, some 3, some 3⟩⟩], []⟩ : MDRState)
        < TS_MAX ∧
    (((dispatchNextEventMDR ⟨5, "A", ⟨some 1, some 1, some 1, some 1⟩,
          [⟨5, "B", ⟨some 2, some 2, some 2, some 2⟩⟩,
            ⟨7, "A", ⟨some 3, some 3, some 3, some 3⟩⟩], []⟩).2.filter
          isPublishEv
        = ((⟨5, "A", ⟨some 1, some 1, some 1, some 1⟩⟩ : MDRec) ::
            ([⟨5, "B", ⟨some 2, some 2, some 2, some 2⟩⟩,
              ⟨7, "A", ⟨some 3, some 3, some 3, some 3⟩⟩] :
                List MDRec).takeWhile (fun r => decide (r.ts = 5))).map
          (fun r => MDEv.publish r.sym r.book)) ∧
      ((dispatchNextEventMDR ⟨5, "A", ⟨some 1, some 1, some 1, some 1⟩,
          [⟨5, "B", ⟨some 2, some 2, some 2, some 2⟩⟩,
            ⟨7, "A", ⟨some 3, some 3, some 3, some 3⟩⟩], []⟩).2.count
          MDEv.endBatch = 1) ∧
      ((dispatchNextEventMDR ⟨5, "A", ⟨some 1, some 1, some 1, some 1⟩,
          [⟨5, "B", ⟨some 2, some 2, some 2, some 2⟩⟩,
            ⟨7, "A", ⟨some 3, some 3, some 3, some 3⟩⟩], []⟩).2.getLast?
          = some MDEv.endBatch) ∧
      (getNextEventTime (dispatchNextEventMDR
          ⟨5, "A", ⟨some 1, some 1, some 1, some 1⟩,
            [⟨5, "B", ⟨some 2, some 2, some 2, some 2⟩⟩,
              ⟨7, "A", ⟨some 3, some 3, some 3, some 3⟩⟩], []⟩).1
        = match ([⟨5, "B", ⟨some 2, some 2, some 2, some 2⟩⟩,
              ⟨7, "A", ⟨some 3, some 3, some 3, some 3⟩⟩] :
                List MDRec).dropWhile (fun r => decide (r.ts = 5)) with
          | [] => TS_MAX
          | r :: _ => r.ts)) :=
  ⟨by decide,
    replayer_dispatch_batches
      ⟨5, "A", ⟨some 1, some 1, some 1, some 1⟩,
        [⟨5, "B", ⟨some 2, some 2, some 2, some 2⟩⟩,
          ⟨7, "A", ⟨some 3, some 3, some 3, some 3⟩⟩], []⟩
      (by decide) (by decide)⟩

/-- Event-callback commands never move the clock. -/
theorem runCmd_now (s : ELState) (c : Cmd) : (runCmd s c).now = s.now := by
  cases c with
  | post d b =>
    show (postEventEL s d b).now = s.now
    simp only [postEventEL]
    split <;> rfl
  | stop d => rfl

/-- Running a callback never moves the clock. -/
theorem runCmds_now (cs : List Cmd) (s : ELState) :
    (runCmds s cs).now = s.now := by
  induction cs generalizing s with
  | nil => rfl
  | cons c rest ih =>
    show (runCmds (runCmd s c) rest).now = s.now
    rw [ih, runCmd_now]

/-- A non-negative-delta command preserves the clock invariant and the
non-negativity of all queued callbacks. -/
theorem runCmd_inv (s : ELState) (c : Cmd) (hinv : InvEL s)
    (hs : nnegState s = true) (hc : nnegCmd c = true) :
    InvEL (runCmd s c) ∧ nnegState (runCmd s c) = true := by
  simp only [nnegState, Bool.and_eq_true, List.all_eq_true] at hs
  cases c with
  | post d b =>
    simp only [nnegCmd, Bool.and_eq_true, decide_eq_true_eq] at hc
    show InvEL (postEventEL s d b) ∧ nnegState (postEventEL s d b) = true
    simp only [postEventEL]
    split
    · refine ⟨fun e he => hinv e he, ?_⟩
      simp only [nnegState, Bool.and_eq_true, List.all_eq_true]
      refine ⟨fun e he => hs.1 e he, fun ch hch => ?_⟩
      rcases List.mem_append.1 hch with h | h
      · exact hs.2 ch h
      · simp only [List.mem_singleton] at h
        subst h
        exact hc.2
    · constructor
      · intro e he
        rcases List.mem_append.1 he with h | h
        · exact hinv e h
        · simp only [List.mem_singleton] at h
          subst h
          simp only []
          omega
      · simp only [nnegState, Bool.and_eq_true, List.all_eq_true]
        refine ⟨fun e he => ?_, fun ch hch => hs.2 ch hch⟩
        rcases List.mem_append.1 he with h | h
        · exact hs.1 e h
        · simp only [List.mem_singleton] at h
          subst h
          simpa [nnegPayload] using hc.2
  | stop d =>
    simp only [nnegCmd, decide_eq_true_eq] at hc
    show InvEL (stopEL s d) ∧ nnegState (stopEL s d) = true
    simp only [stopEL]
    constructor
    · intro e he
      rcases List.mem_append.1 he with h | h
      · exact hinv e h
      · simp only [List.mem_singleton] at h
        subst h
        simp only []
        omega
    · simp only [nnegState, Bool.and_eq_true, List.all_eq_true]
      refine ⟨fun e he => ?_, fun ch hch => hs.2 ch hch⟩
      rcases List.mem_append.1 he with h | h
      · exact hs.1 e h
      · simp only [List.mem_singleton] at h
        subst h
        rfl

/-- A non-negative-delta callback preserves the clock invariant and the
non-negativity of all queued callbacks. -/
theorem runCmds_inv (cs : List Cmd) (s : ELState) (hinv : InvEL s)
    (hs : nnegState s = true) (hc : nnegCmds cs = true) :
    InvEL (runCmds s cs) ∧ nnegState (runCmds s cs) = true := by
  induction cs generalizing s with
  | nil => exact ⟨hinv, hs⟩
  | cons c rest ih =>
    simp only [nnegCmds, Bool.and_eq_true] at hc
    have h1 := runCmd_inv s c hinv hs hc.1
    exact ih (runCmd s c) h1.1 h1.2 hc.2

/-- Draining chores never moves the clock and preserves the invariants. -/
theorem dispatchChores_inv (fuel : Nat) (s : ELState) (hinv : InvEL s)
    (hs : nnegState s = true) :
    (dispatchChores fuel s).now = s.now ∧ InvEL (dispatchChores fuel s) ∧
      nnegState (dispatchChores fuel s) = true := by
  induction fuel generalizing s with
  | zero => exact ⟨rfl, hinv, hs⟩
  | succ fuel ih =>
    unfold dispatchChores
    split
    · split
      · exact ⟨rfl, hinv, hs⟩
      · rename_i fst body rest heq
        have hs' := hs
        simp only [nnegState, Bool.and_eq_true, List.all_eq_true] at hs'
        have hch : nnegCmds body = true :=
          hs'.2 (fst, body) (heq ▸ List.mem_cons_self (fst, body) rest)
        have hrest : nnegState { s with chores := rest } = true := by
          simp only [nnegState, Bool.and_eq_true, List.all_eq_true]
          exact ⟨fun e he => hs'.1 e he,
            fun x hx => hs'.2 x (heq ▸ List.mem_cons_of_mem (fst, body) hx)⟩
        have hinv' : InvEL { s with chores := rest } := fun e he => hinv e he
        have h1 := runCmds_inv body { s with chores := rest } hinv' hrest hch
        have h2 := ih (runCmds { s with chores := rest } body) h1.1 h1.2
        refine ⟨?_, h2.2.1, h2.2.2⟩
        rw [h2.1, runCmds_now]
    · exact ⟨rfl, hinv, hs⟩

/-- An empty pop means an empty queue. -/
theorem popMinFuture_eq_none (l : List FutureEvent)
    (h : popMinFuture l = none) : l = [] := by
  cases l with
  | nil => rfl
  | cons a tl =>
    rcases htl : popMinFuture tl with _ | p
    · simp [popMinFuture, htl] at h
    · obtain ⟨m, others⟩ := p
      simp only [popMinFuture, htl] at h
      split at h <;> simp at h

/-- The popped future event is a member of the queue, the remainder is a
sub-collection, and the popped event expires soonest. -/
theorem popMinFuture_spec (l : List FutureEvent) (e : FutureEvent)
    (rest : List FutureEvent) (h : popMinFuture l = some (e, rest)) :
    e ∈ l ∧ (∀ x ∈ rest, x ∈ l) ∧ (∀ x ∈ l, e.expireTime ≤ x.expireTime) := by
  induction l generalizing e rest with
  | nil => simp [popMinFuture] at h
  | cons a tail ih =>
    rcases htail : popMinFuture tail with _ | ⟨m, others⟩
    · have htl := popMinFuture_eq_none tail htail
      subst htl
      simp only [popMinFuture, Option.some.injEq, Prod.mk.injEq] at h
      obtain ⟨rfl, rfl⟩ := h
      exact ⟨List.mem_singleton.2 rfl, by simp, by simp⟩
    · have hm := ih m others htail
      simp only [popMinFuture, htail] at h
      by_cases hless : evLess m a = true
      · rw [if_pos hless] at h
        obtain ⟨he, hrest⟩ := Prod.mk.injEq .. ▸ Option.some.inj h
        subst he
        subst hrest
        have hma : m.expireTime ≤ a.expireTime := by
          unfold evLess at hless
          simp only [Bool.or_eq_true, Bool.and_eq_true, decide_eq_true_eq]
            at hless
          rcases hless with h1 | ⟨h1, _⟩ <;> omega
        refine ⟨List.mem_cons_of_mem a hm.1, ?_, ?_⟩
        · intro x hx
          rcases List.mem_cons.1 hx with h1 | h1
          · exact h1 ▸ List.mem_cons_self a tail
          · exact List.mem_cons_of_mem a (hm.2.1 x h1)
        · intro x hx
          rcases List.mem_cons.1 hx with h1 | h1
          · exact h1 ▸ hma
          · exact hm.2.2 x h1
      · rw [if_neg hless] at h
        obtain ⟨he, hrest⟩ := Prod.mk.injEq .. ▸ Option.some.inj h
        subst he
        subst hrest
        have hma : a.expireTime ≤ m.expireTime := by
          unfold evLess at hless
          simp only [Bool.or_eq_true, Bool.and_eq_true, decide_eq_true_eq,
            not_or] at hless
          push_neg at hless
          rcases hless with ⟨h1, h2⟩
          by_cases he : m.expireTime = a.expireTime
          · omega
          · omega
        refine ⟨List.mem_cons_self a tail, ?_, ?_⟩
        · intro x hx
          exact List.mem_cons_of_mem a (hm.2.1 x hx)
        · intro x hx
          rcases List.mem_cons.1 hx with h1 | h1
          · exact h1 ▸ le_refl _
          · exact le_trans hma (hm.2.2 x h1)

/-- Dispatching the next future event never moves the clock backwards and
preserves the invariants. -/
theorem dispatchNextFutureEvent_inv (s : ELState) (hinv : InvEL s)
    (hs : nnegState s = true) :
    s.now ≤ (dispatchNextFutureEvent s).now ∧
      InvEL (dispatchNextFutureEvent s) ∧
      nnegState (dispatchNextFutureEvent s) = true := by
  unfold dispatchNextFutureEvent
  split
  · rcases hpop : popMinFuture s.future with _ | ⟨e, rest⟩
    · exact ⟨le_refl _, hinv, hs⟩
    · have hspec := popMinFuture_spec s.future e rest hpop
      have hnow : s.now ≤ e.expireTime := hinv e hspec.1
      have hs' := hs
      simp only [nnegState, Bool.and_eq_true, List.all_eq_true] at hs'
      have hinv1 : InvEL { s with future := rest, now := e.expireTime } := by
        intro x hx
        exact hspec.2.2 x (hspec.2.1 x hx)
      have hs1 : nnegState { s with future := rest, now := e.expireTime }
          = true := by
        simp only [nnegState, Bool.and_eq_true, List.all_eq_true]
        exact ⟨fun x hx => hs'.1 x (hspec.2.1 x hx),
          fun x hx => hs'.2 x hx⟩
      rcases e with ⟨eid, ets, pl⟩
      cases pl with
      | halt =>
        exact ⟨hnow, fun x hx => hinv1 x hx, hs1⟩
      | user body =>
        have hbody : nnegCmds body = true := by
          simpa [nnegPayload] using hs'.1 ⟨eid, ets, EvPayload.user body⟩
            hspec.1
        have h1 := runCmds_inv body _ hinv1 hs1 hbody
        refine ⟨?_, h1.1, h1.2⟩
        rw [runCmds_now]
        exact hnow
  · exact ⟨le_refl _, hinv, hs⟩

/-- The dispatch loop never moves the clock backwards and preserves the
invariants. -/
theorem dispatchLoop_inv (fuel : Nat) (s : ELState) (hinv : InvEL s)
    (hs : nnegState s = true) :
    s.now ≤ (dispatchLoop fuel s).now ∧ InvEL (dispatchLoop fuel s) ∧
      nnegState (dispatchLoop fuel s) = true := by
  induction fuel generalizing s with
  | zero => exact ⟨le_refl _, hinv, hs⟩
  | succ fuel ih =>
    unfold dispatchLoop
    split
    · have h1 := dispatchChores_inv fuel s hinv hs
      have h2 := dispatchNextFutureEvent_inv (dispatchChores fuel s) h1.2.1
        h1.2.2
      have h3 := ih (dispatchNextFutureEvent (dispatchChores fuel s)) h2.2.1
        h2.2.2
      refine ⟨?_, h3.2.1, h3.2.2⟩
      calc s.now = (dispatchChores fuel s).now := (h1.1).symm
        _ ≤ (dispatchNextFutureEvent (dispatchChores fuel s)).now := h2.1
        _ ≤ _ := h3.1
    · exact ⟨le_refl _, hinv, hs⟩

/-- A dispatch call (fast-forward included) never moves the clock
backwards and preserves the invariants. -/
theorem dispatchEL_inv (fuel : Nat) (s : ELState) (hinv : InvEL s)
    (hs : nnegState s = true) :
    s.now ≤ (dispatchEL fuel s).now ∧ InvEL (dispatchEL fuel s) ∧
      nnegState (dispatchEL fuel s) = true := by
  rcases hpop : popMinFuture s.future with _ | ⟨e, rest⟩
  · simp only [dispatchEL, hpop]
    exact dispatchLoop_inv fuel _ (fun x hx => hinv x hx) hs
  · simp only [dispatchEL, hpop]
    have hspec := popMinFuture_spec _ e rest hpop
    have hnow : s.now ≤ e.expireTime := hinv e hspec.1
    have hinv1 : InvEL { s with enabled := true, now := e.expireTime } := by
      intro x hx
      exact hspec.2.2 x hx
    have h1 := dispatchLoop_inv fuel
      { s with enabled := true, now := e.expireTime } hinv1 hs
    exact ⟨le_trans hnow h1.1, h1.2.1, h1.2.2⟩

/-- One public event-loop operation with non-negative deltas never moves
the clock backwards and preserves the invariants. -/
theorem runApiOp_inv (s : ELState) (op : ApiOp) (hinv : InvEL s)
    (hs : nnegState s = true) (hop : nnegApiOp op = true) :
    s.now ≤ (runApiOp s op).now ∧ InvEL (runApiOp s op) ∧
      nnegState (runApiOp s op) = true := by
  cases op with
  | postEvent d body =>
    have h := runCmd_inv s (Cmd.post d body) hinv hs
      (by simpa [nnegCmd, nnegApiOp] using hop)
    exact ⟨le_of_eq (runCmd_now s (Cmd.post d body)).symm, h.1, h.2⟩
  | stop d =>
    have h := runCmd_inv s (Cmd.stop d) hinv hs
      (by simpa [nnegCmd, nnegApiOp] using hop)
    exact ⟨le_of_eq (runCmd_now s (Cmd.stop d)).symm, h.1, h.2⟩
  | dispatch fuel => exact dispatchEL_inv fuel s hinv hs

/-- A sequence of public event-loop operations with non-negative deltas
never moves the clock backwards and preserves the invariants. -/
theorem runApi_inv (ops : List ApiOp) (s : ELState) (hinv : InvEL s)
    (hs : nnegState s = true) (hops : ops.all nnegApiOp = true) :
    s.now ≤ (runApi s ops).now ∧ InvEL (runApi s ops) ∧
      nnegState (runApi s ops) = true := by
  induction ops generalizing s with
  | nil => exact ⟨le_refl _, hinv, hs⟩
  | cons op rest ih =>
    simp only [List.all_cons, Bool.and_eq_true] at hops
    have h1 := runApiOp_inv s op hinv hs hops.1
    have h2 := ih (runApiOp s op) h1.2.1 h1.2.2 hops.2
    exact ⟨le_trans h1.1 h2.1, h2.2.1, h2.2.2⟩

/-- C5 counterexample: `postEvent` accepts a signed delta; posting an
event 5ns in the past and dispatching fast-forwards the clock to the
event's expiry time, moving `getEventTime` backwards from 0 to -5. -/
theorem event_loop_time_cex :
    (runApi (initEL 0) [ApiOp.postEvent (-5) [], ApiOp.dispatch 1]).now
      < (initEL 0).now := by
  decide

/-- C5 amended: for every sequence of `postEvent`, `stop`, and `dispatch`
operations whose deltas (including those of callbacks run during
dispatch) are all non-negative, the simulated current time returned by
`getEventTime` is monotonically non-decreasing across the sequence: no
dispatched event and no fast-forward at the start of dispatch moves the
clock backwards. -/
theorem event_loop_time_monotone (start : Int) (ops extra : List ApiOp)
    (h : (ops ++ extra).all nnegApiOp = true) :
    (runApi (initEL start) ops).now
      ≤ (runApi (initEL start) (ops ++ extra)).now := by
  rw [List.all_append, Bool.and_eq_true] at h
  have hinv0 : InvEL (initEL start) := by
    intro e he
    simp [initEL] at he
  have hs0 : nnegState (initEL start) = true := by rfl
  have h1 := runApi_inv ops (initEL start) hinv0 hs0 h.1
  have h2 := runApi_inv extra (runApi (initEL start) ops) h1.2.1 h1.2.2 h.2
  have hsplit : runApi (initEL start) (ops ++ extra)
      = runApi (runApi (initEL start) ops) extra := by
    simp [runApi, List.foldl_append]
  rw [hsplit]
  exact h2.1

/-- Witness for C5 amended on a concrete sequence: post an event 5ns
ahead, dispatch, then dispatch again; the clock never decreases. -/
theorem event_loop_time_monotone_witness :
    (([ApiOp.postEvent 5 [], ApiOp.dispatch 2] ++ [ApiOp.dispatch 2]).all
        nnegApiOp = true) ∧
      (runApi (initEL 0) [ApiOp.postEvent 5 [], ApiOp.dispatch 2]).now
        ≤ (runApi (initEL 0)
            ([ApiOp.postEvent 5 [], ApiOp.dispatch 2] ++ [ApiOp.dispatch 2])).now :=
  ⟨by decide,
    event_loop_time_monotone 0 [ApiOp.postEvent 5 [], ApiOp.dispatch 2]
      [ApiOp.dispatch 2] (by decide)⟩

end TcGts
